import Mathlib

/-!
# The NOT_IN aggregate UDF (`not_in.c`)

A shallow embedding of the aggregate's group state and of its callbacks
`not_in_init`, `not_in_clear`, `not_in_add` and `not_in`, followed by the
properties of the set-maintenance protocol that were checked against it.

Conventions of the embedding:

* a `char` buffer is the list of its bytes; a `char *` that may be `NULL` is an
  `Option` of such a list;
* a heap array (`char **`, `ulonglong *`) is the list of its allocated slots;
  reading slot `i` is `getD i`, writing it is `set i`; a slot that was never
  written holds `[]` (resp. `0`); a null array pointer has no slots;
* `malloc` / `realloc` outcomes are inputs of the callbacks (one flag per call
  site), so that "all allocations succeed" is an explicit choice of flags;
* counters and lengths are natural numbers (no wrap-around is reachable
  before memory is exhausted).
-/

set_option autoImplicit false

namespace NotIn

/-! ## Data model -/

/-- One byte of a C `char` buffer. -/
abbrev Byte := Fin 256

/-- The bytes of a heap or host buffer, in address order. -/
abbrev Bytes := List Byte

/-- Modelled from the spec: the host header `mysql.h` declaring `enum Item_result`
is not part of the sources; the three tags the spec lists are kept. -/
inductive Item_result where
  | STRING_RESULT
  | REAL_RESULT
  | INT_RESULT
deriving DecidableEq, Repr

/-- Modelled from the spec: the host header `mysql.h` declaring `UDF_ARGS` is not
part of the sources. The fields are the ones `not_in.c` reads or writes:
`arg_count`, `arg_type`, `args` (`none` is the null pointer of an SQL NULL),
`lengths` and `attribute_lengths`. -/
structure UDF_ARGS where
  arg_count : Nat
  arg_type : List Item_result
  args : List (Option Bytes)
  lengths : List Nat
  attribute_lengths : List Nat
deriving DecidableEq, Repr

/-- The C `struct not_in_data` (lines 172-181): two counted arrays of owned
buffers with their recorded lengths. -/
structure not_in_data where
  referenceCount : Nat
  references : List Bytes
  referenceLengths : List Nat
  valueCount : Nat
  values : List Bytes
  valueLengths : List Nat
deriving DecidableEq, Repr

/-- Modelled from the spec: the host header `mysql.h` declaring `UDF_INIT` is not
part of the sources. `ptr` is the instance-pointer slot (`none` when no state is
attached); `my_bool` flags are numbers. -/
structure UDF_INIT where
  maybe_null : Nat
  decimals : Nat
  max_length : Nat
  ptr : Option not_in_data
deriving DecidableEq, Repr

/-- Outcomes of the five `malloc` calls of `not_in_init`, in source order. -/
structure InitAlloc where
  data : Bool
  references : Bool
  referenceLengths : Bool
  values : Bool
  valueLengths : Bool
deriving DecidableEq, Repr

/-- Outcomes of the six allocation calls of `not_in_add`, in source order:
`malloc` of the value copy, `realloc` of `values` and of `valueLengths`,
`malloc` of the reference copy, `realloc` of `references` and of
`referenceLengths`. -/
structure AddAlloc where
  newValue : Bool
  values : Bool
  valueLengths : Bool
  newReference : Bool
  references : Bool
  referenceLengths : Bool
deriving DecidableEq, Repr

/-- Every allocation of `not_in_init` succeeds. -/
def initAllocOk : InitAlloc := ⟨true, true, true, true, true⟩

/-- Every allocation of `not_in_add` succeeds. -/
def allocOk : AddAlloc := ⟨true, true, true, true, true, true⟩

/-! ## C library primitives -/

/-- The bytes readable at a `char *`; none at a null pointer. -/
def buf (p : Option Bytes) : Bytes := p.getD []

/-- The test `memcmp(a, b, n) == 0`: the first `n` bytes at `a` and at `b` agree.
With `n = 0` it holds for every pair of pointers, a null `a` included. -/
def memcmp_eq0 (a : Option Bytes) (b : Bytes) (n : Nat) : Bool :=
  (buf a).take n == b.take n

/-- A successful `realloc(p, n * sizeof *p)`: the block now has `n` slots, the
old contents are kept up to the smaller of the two sizes, and added slots are
unwritten. -/
def realloc {α : Type} (unwritten : α) (p : List α) (n : Nat) : List α :=
  p.take n ++ List.replicate (n - p.length) unwritten

/-! ## `not_in_init` and `not_in_clear` -/

/-- What `not_in_init` leaves behind: its return value, the two descriptors and
the message buffer (`none` when nothing was written). -/
structure InitResult where
  ret : Nat
  initid : UDF_INIT
  args : UDF_ARGS
  message : Option String
deriving DecidableEq, Repr

/-- The function `not_in_init` (lines 187-261). -/
def not_in_init (al : InitAlloc) (initid : UDF_INIT) (args : UDF_ARGS) : InitResult :=
  if args.arg_count ≠ 2 then
    ⟨1, initid, args, some "wrong number of arguments: NOT_IN() requires two arguments"⟩
  else
    let args1 := { args with
      arg_type := (args.arg_type.set 0 Item_result.STRING_RESULT).set 1 Item_result.STRING_RESULT }
    let initid1 := { initid with
      maybe_null := 1, max_length := args.attribute_lengths.getD 0 0 }
    if !al.data then ⟨1, initid1, args1, some "Couldn't allocate memory"⟩
    else if !al.references then ⟨1, initid1, args1, some "Couldn't allocate memory"⟩
    else if !al.referenceLengths then ⟨1, initid1, args1, some "Couldn't allocate memory"⟩
    else if !al.values then ⟨1, initid1, args1, some "Couldn't allocate memory"⟩
    else if !al.valueLengths then ⟨1, initid1, args1, some "Couldn't allocate memory"⟩
    else
      let data : not_in_data :=
        { referenceCount := 0, references := [[]], referenceLengths := [0],
          valueCount := 0, values := [[]], valueLengths := [0] }
      ⟨0, { initid1 with ptr := some data }, args1, none⟩

/-- The function `not_in_clear` (lines 305-323): the stored buffers are freed and
both counters reset; the arrays themselves are kept. -/
def not_in_clear (data : not_in_data) : not_in_data :=
  { data with referenceCount := 0, valueCount := 0 }

/-! ## `not_in_add` -/

/-- The comparison of lines 346, 350, 361 and 365: argument `k` has the recorded
length of slot `i` and `memcmp` finds its bytes equal to the slot's buffer. -/
def slotMatches (args : UDF_ARGS) (k : Nat) (lens : List Nat) (bufs : List Bytes)
    (i : Nat) : Bool :=
  args.lengths.getD k 0 == lens.getD i 0
    && memcmp_eq0 (args.args.getD k none) (bufs.getD i []) (args.lengths.getD k 0)

/-- The two flags of the first loop of `not_in_add`. -/
structure ReferenceProbe where
  referencesHaveValue : Bool
  referencesHaveReference : Bool
deriving DecidableEq, Repr

/-- One iteration of the loop over the reference array (lines 346-353) at
index `i`. -/
def referenceLoopBody (args : UDF_ARGS) (data : not_in_data) (i : Nat)
    (p : ReferenceProbe) : ReferenceProbe :=
  let p1 : ReferenceProbe :=
    if slotMatches args 0 data.referenceLengths data.references i then
      { p with referencesHaveValue := true }
    else p
  if slotMatches args 1 data.referenceLengths data.references i then
    { p1 with referencesHaveReference := true }
  else p1

/-- The loop over the reference array (lines 345-354), started at index `i` with
the given flags; `fuel` bounds the number of iterations. -/
def referenceLoop (args : UDF_ARGS) (data : not_in_data) :
    Nat → Nat → ReferenceProbe → ReferenceProbe
  | 0, _, p => p
  | fuel + 1, i, p =>
    if i < data.referenceCount
        && !(p.referencesHaveValue && p.referencesHaveReference) then
      referenceLoop args data fuel (i + 1) (referenceLoopBody args data i p)
    else p

/-- The state of the second loop of `not_in_add`: the group state it mutates
and its two flags. -/
structure ValueProbe where
  data : not_in_data
  valuesHaveValue : Bool
  valuesHaveReference : Bool
deriving DecidableEq, Repr

/-- The removal of lines 368-371 at slot `i`: the buffer of the slot is freed, the
counter is decremented, and the slot takes the length and the pointer of the
slot the counter now designates (the last live one). -/
def removeValue (data : not_in_data) (i : Nat) : not_in_data :=
  let n := data.valueCount - 1
  { data with
    valueCount := n
    valueLengths := data.valueLengths.set i (data.valueLengths.getD n 0)
    values := data.values.set i (data.values.getD n []) }

/-- One iteration of the loop over the value array (lines 361-374) at index
`i`. The flag `valuesHaveReference` is never written by the source. -/
def valueLoopBody (args : UDF_ARGS) (i : Nat) (p : ValueProbe) : ValueProbe :=
  let p1 : ValueProbe :=
    if slotMatches args 0 p.data.valueLengths p.data.values i then
      { p with valuesHaveValue := true }
    else p
  if slotMatches args 1 p1.data.valueLengths p1.data.values i then
    { p1 with data := removeValue p1.data i }
  else p1

/-- The loop over the value array (lines 360-375), started at index `i`; `fuel`
bounds the number of iterations. After each iteration the index moves on,
whether or not a slot was overwritten. -/
def valueLoop (args : UDF_ARGS) : Nat → Nat → ValueProbe → ValueProbe
  | 0, _, p => p
  | fuel + 1, i, p =>
    if i < p.data.valueCount
        && !(p.valuesHaveValue && p.valuesHaveReference) then
      valueLoop args fuel (i + 1) (valueLoopBody args i p)
    else p

/-- The guard of the value insertion (lines 381-389). -/
def insertValueGuard (args : UDF_ARGS) (referencesHaveValue valuesHaveValue : Bool) : Bool :=
  !referencesHaveValue && !valuesHaveValue &&
    !(args.lengths.getD 0 0 == args.lengths.getD 1 0
      && (args.args.getD 0 none).isSome
      && (args.args.getD 1 none).isSome
      && memcmp_eq0 (args.args.getD 0 none) (buf (args.args.getD 1 none))
           (args.lengths.getD 1 0))

/-- The body of the value insertion (lines 390-414). An early `return` is
`Except.error` with the state and the message at that point. -/
def insertValue (al : AddAlloc) (args : UDF_ARGS) (data : not_in_data) :
    Except (not_in_data × String) not_in_data :=
  if !al.newValue then .error (data, "Couldn't allocate string")
  else
    let newValueLength := args.lengths.getD 0 0
    let newValue := (buf (args.args.getD 0 none)).take newValueLength
    let d1 := { data with valueCount := data.valueCount + 1 }
    if !al.values then .error ({ d1 with values := [] }, "Couldn't reallocate memory")
    else
      let d2 := { d1 with values := realloc [] d1.values d1.valueCount }
      if !al.valueLengths then
        .error ({ d2 with valueLengths := [] }, "Couldn't reallocate memory")
      else
        let d3 := { d2 with valueLengths := realloc 0 d2.valueLengths d2.valueCount }
        .ok { d3 with
          values := d3.values.set (d3.valueCount - 1) newValue
          valueLengths := d3.valueLengths.set (d3.valueCount - 1) newValueLength }

/-- The body of the reference insertion (lines 418-442). -/
def insertReference (al : AddAlloc) (args : UDF_ARGS) (data : not_in_data) :
    Except (not_in_data × String) not_in_data :=
  if !al.newReference then .error (data, "Couldn't allocate string")
  else
    let newReferenceLength := args.lengths.getD 1 0
    let newReference := (buf (args.args.getD 1 none)).take newReferenceLength
    let d1 := { data with referenceCount := data.referenceCount + 1 }
    if !al.references then .error ({ d1 with references := [] }, "Couldn't reallocate memory")
    else
      let d2 := { d1 with references := realloc [] d1.references d1.referenceCount }
      if !al.referenceLengths then
        .error ({ d2 with referenceLengths := [] }, "Couldn't reallocate memory")
      else
        let d3 := { d2 with
          referenceLengths := realloc 0 d2.referenceLengths d2.referenceCount }
        .ok { d3 with
          references := d3.references.set (d3.referenceCount - 1) newReference
          referenceLengths :=
            d3.referenceLengths.set (d3.referenceCount - 1) newReferenceLength }

/-- The function `not_in_add` (lines 328-444): the group state on return and the
message written, if any. Both loops get as many iterations as the array has
live slots on entry. -/
def not_in_add (al : AddAlloc) (data : not_in_data) (args : UDF_ARGS) :
    not_in_data × Option String :=
  let rp := referenceLoop args data data.referenceCount 0 ⟨false, false⟩
  let vp := valueLoop args data.valueCount 0 ⟨data, false, false⟩
  let afterValue :=
    if insertValueGuard args rp.referencesHaveValue vp.valuesHaveValue then
      insertValue al args vp.data
    else .ok vp.data
  match afterValue with
  | .error (d, msg) => (d, some msg)
  | .ok d =>
    if !rp.referencesHaveReference && (args.args.getD 1 none).isSome then
      match insertReference al args d with
      | .error (d1, msg) => (d1, some msg)
      | .ok d1 => (d1, none)
    else (d, none)

/-! ## `not_in` -/

/-- What `not_in` leaves behind: the returned `char *`, the out-parameters
`*length`, `*is_null` and `*error`, and the descriptor with its group state. A
pointer is represented by the buffer it designates. -/
structure FinalizeResult where
  ret : Option Bytes
  length : Nat
  is_null : Nat
  error : Nat
  initid : UDF_INIT
deriving DecidableEq, Repr

/-- The function `not_in` (lines 465-479): the group state is looked up and the
`result` pointer is returned; the assignments to `*length` and `*result` are
commented out in the source. -/
def not_in (initid : UDF_INIT) (_args : UDF_ARGS) (result : Option Bytes)
    (length is_null error : Nat) : FinalizeResult :=
  let _data := initid.ptr
  { ret := result, length := length, is_null := is_null, error := error, initid := initid }

/-! ## Rows, runs and the stored sets -/

/-- The length the host passes for an argument: the byte count, and `0` for a
null pointer. -/
def argLength (x : Option Bytes) : Nat := (buf x).length

/-- The argument descriptor the host presents for the row `(V, R)`. -/
def row (V R : Option Bytes) : UDF_ARGS :=
  { arg_count := 2
    arg_type := [Item_result.STRING_RESULT, Item_result.STRING_RESULT]
    args := [V, R]
    lengths := [argLength V, argLength R]
    attribute_lengths := [0, 0] }

/-- One `not_in_add` on the row `(V, R)` with every allocation succeeding. -/
def addRow (data : not_in_data) (r : Option Bytes × Option Bytes) : not_in_data :=
  (not_in_add allocOk data (row r.1 r.2)).1

/-- The rows of a group applied in order to a state. -/
def run (data : not_in_data) (rows : List (Option Bytes × Option Bytes)) : not_in_data :=
  rows.foldl addRow data

/-- The state attached by a successful `not_in_init`. -/
def initState : not_in_data :=
  { referenceCount := 0, references := [[]], referenceLengths := [0],
    valueCount := 0, values := [[]], valueLengths := [0] }

/-- A group state with no stored string, as left by `not_in_init` and by
`not_in_clear`. -/
def EmptyState (data : not_in_data) : Prop :=
  data.referenceCount = 0 ∧ data.valueCount = 0

instance (data : not_in_data) : Decidable (EmptyState data) := by
  unfold EmptyState; infer_instance

/-- The byte string stored in live slot `i` of `references`. -/
def storedReference (data : not_in_data) (i : Nat) : Bytes :=
  (data.references.getD i []).take (data.referenceLengths.getD i 0)

/-- The byte string stored in live slot `i` of `values`. -/
def storedValue (data : not_in_data) (i : Nat) : Bytes :=
  (data.values.getD i []).take (data.valueLengths.getD i 0)

/-- The byte strings stored in `references`, slot by slot. -/
def storedReferences (data : not_in_data) : List Bytes :=
  (List.range data.referenceCount).map (storedReference data)

/-- The byte strings stored in `values`, slot by slot. -/
def storedValues (data : not_in_data) : List Bytes :=
  (List.range data.valueCount).map (storedValue data)

/-- The representation invariant of the reference array: the live slots are
allocated and each recorded length is the size of its buffer. -/
def RefsWF (data : not_in_data) : Prop :=
  data.referenceCount ≤ data.references.length ∧
  data.referenceCount ≤ data.referenceLengths.length ∧
  ∀ i, i < data.referenceCount →
    data.referenceLengths.getD i 0 = (data.references.getD i []).length

instance (data : not_in_data) : Decidable (RefsWF data) := by
  unfold RefsWF; infer_instance

/-- The representation invariant of the value array: the live slots are
allocated and each recorded length is the size of its buffer. -/
def ValsWF (data : not_in_data) : Prop :=
  data.valueCount ≤ data.values.length ∧
  data.valueCount ≤ data.valueLengths.length ∧
  ∀ i, i < data.valueCount →
    data.valueLengths.getD i 0 = (data.values.getD i []).length

instance (data : not_in_data) : Decidable (ValsWF data) := by
  unfold ValsWF; infer_instance

/-! ## Test data -/

/-- The one-byte string `"a"`. -/
def sa : Bytes := [97]
/-- The one-byte string `"b"`. -/
def sb : Bytes := [98]
/-- The one-byte string `"c"`. -/
def sc : Bytes := [99]
/-- The one-byte string `"d"`. -/
def sd : Bytes := [100]
/-- The one-byte string `"e"`. -/
def se : Bytes := [101]
/-- The one-byte string `"p"`. -/
def sp : Bytes := [112]
/-- The one-byte string `"q"`. -/
def sq : Bytes := [113]
/-- The one-byte string `"x"`. -/
def sx : Bytes := [120]
/-- The one-byte string `"y"`. -/
def sy : Bytes := [121]
/-- The one-byte string `"z"`. -/
def sz : Bytes := [122]

/-- The rows `("x","p"), ("y","q"), ("y","x")`. -/
def rowsDup : List (Option Bytes × Option Bytes) :=
  [(some sx, some sp), (some sy, some sq), (some sy, some sx)]

/-- The rows `("x","p"), ("y","q"), ("y","x"), ("z","y")`. -/
def rowsLeak : List (Option Bytes × Option Bytes) :=
  rowsDup ++ [(some sz, some sy)]

/-- The rows of `rowsLeak` with the last one moved to the front:
`("z","y"), ("x","p"), ("y","q"), ("y","x")`. -/
def rowsLeakRotated : List (Option Bytes × Option Bytes) :=
  [(some sz, some sy)] ++ rowsDup

/-- The rows `("","a"), ("b",NULL)`: an empty, non-null value, then a null
reference. -/
def rowsEmptyString : List (Option Bytes × Option Bytes) :=
  [(some [], some sa), (some sb, none)]

/-- Scenario 1 of the specification: `("a","b")`. -/
def scenario1 : List (Option Bytes × Option Bytes) := [(some sa, some sb)]

/-- Scenario 2 of the specification: `("a","b"), ("b","c")`. -/
def scenario2 : List (Option Bytes × Option Bytes) :=
  [(some sa, some sb), (some sb, some sc)]

/-- Scenario 3 of the specification: `("a","a")`. -/
def scenario3 : List (Option Bytes × Option Bytes) := [(some sa, some sa)]

/-- Scenario 4 of the specification: `("a","b"), ("a","b"), ("a","c")`. -/
def scenario4 : List (Option Bytes × Option Bytes) :=
  [(some sa, some sb), (some sa, some sb), (some sa, some sc)]

/-- Scenario 5 of the specification: `("a","b"), (NULL,"c"), ("d",NULL)`. -/
def scenario5 : List (Option Bytes × Option Bytes) :=
  [(some sa, some sb), (none, some sc), (some sd, none)]

/-- Scenario 6 of the specification: `("x","y"), ("y","x")`. -/
def scenario6 : List (Option Bytes × Option Bytes) :=
  [(some sx, some sy), (some sy, some sx)]

/-- The allocations of one `not_in_add` in which the copy of the value is
obtained and the growth of the `values` array fails. -/
def valuesGrowthFails : AddAlloc := ⟨true, false, true, true, true, true⟩

/-- The allocations of one `not_in_add` in which the `values` array grows and the
growth of the `valueLengths` array fails. -/
def valueLengthsGrowthFails : AddAlloc := ⟨true, true, false, true, true, true⟩

/-- The allocations of one `not_in_add` in which the value is inserted, the copy
of the reference is obtained and the growth of the `references` array fails. -/
def referencesGrowthFails : AddAlloc := ⟨true, true, true, true, false, true⟩

/-- The allocations of one `not_in_add` in which the copy of the value cannot be
obtained. -/
def valueCopyFails : AddAlloc := ⟨false, true, true, true, true, true⟩

/-- A host descriptor as handed to `not_in_init`: nothing attached yet. -/
def hostInitid : UDF_INIT := { maybe_null := 0, decimals := 0, max_length := 0, ptr := none }

/-- The argument descriptor of `NOT_IN(name, ref)` at init time for two columns
of at most ten bytes whose names are four and three bytes long. -/
def hostArgs : UDF_ARGS :=
  { arg_count := 2
    arg_type := [Item_result.INT_RESULT, Item_result.STRING_RESULT]
    args := [none, none]
    lengths := [10, 10]
    attribute_lengths := [4, 3] }

/-! ## Arrays -/

theorem length_realloc {α : Type} (u : α) (p : List α) (n : Nat) :
    (realloc u p n).length = n := by
  simp only [realloc, List.length_append, List.length_take, List.length_replicate]
  omega

theorem getD_realloc {α : Type} (u d : α) (p : List α) (n i : Nat)
    (hi : i < n) (hp : i < p.length) :
    (realloc u p n).getD i d = p.getD i d := by
  have h1 : i < (p.take n).length := by
    simp only [List.length_take]; omega
  simp only [realloc, List.getD_eq_getElem?_getD]
  rw [List.getElem?_append_left h1, List.getElem?_take_of_lt hi]

theorem getD_set_self {α : Type} (d x : α) (p : List α) (i : Nat) (hi : i < p.length) :
    (p.set i x).getD i d = x := by
  simp [List.getD_eq_getElem?_getD, List.getElem?_set, hi]

theorem getD_set_other {α : Type} (d x : α) (p : List α) (i j : Nat) (hij : i ≠ j) :
    (p.set i x).getD j d = p.getD j d := by
  simp [List.getD_eq_getElem?_getD, List.getElem?_set, hij]

/-! ## The reference loop -/

theorem referenceLoopBody_haveReference (args : UDF_ARGS) (data : not_in_data) (i : Nat)
    (p : ReferenceProbe) :
    (referenceLoopBody args data i p).referencesHaveReference =
      (p.referencesHaveReference
        || slotMatches args 1 data.referenceLengths data.references i) := by
  unfold referenceLoopBody
  cases slotMatches args 1 data.referenceLengths data.references i <;>
    cases slotMatches args 0 data.referenceLengths data.references i <;> simp

theorem referenceLoop_haveReference (args : UDF_ARGS) (data : not_in_data) :
    ∀ (fuel i : Nat) (p : ReferenceProbe),
      (referenceLoop args data fuel i p).referencesHaveReference = true ↔
        p.referencesHaveReference = true ∨
        ∃ j, i ≤ j ∧ j < i + fuel ∧ j < data.referenceCount ∧
          slotMatches args 1 data.referenceLengths data.references j = true := by
  intro fuel
  induction fuel with
  | zero =>
    intro i p
    simp only [referenceLoop]
    constructor
    · intro h; exact Or.inl h
    · rintro (h | ⟨j, h1, h2, _⟩)
      · exact h
      · omega
  | succ fuel ih =>
    intro i p
    unfold referenceLoop
    by_cases hc : (decide (i < data.referenceCount)
        && !(p.referencesHaveValue && p.referencesHaveReference)) = true
    · rw [if_pos hc, ih, referenceLoopBody_haveReference, Bool.or_eq_true]
      have hlt : i < data.referenceCount := by
        simp only [Bool.and_eq_true, decide_eq_true_eq] at hc; exact hc.1
      constructor
      · rintro ((h | h) | ⟨j, h1, h2, h3, h4⟩)
        · exact Or.inl h
        · exact Or.inr ⟨i, le_refl _, by omega, hlt, h⟩
        · exact Or.inr ⟨j, by omega, by omega, h3, h4⟩
      · rintro (h | ⟨j, h1, h2, h3, h4⟩)
        · exact Or.inl (Or.inl h)
        · by_cases hji : j = i
          · subst hji
            exact Or.inl (Or.inr h4)
          · exact Or.inr ⟨j, by omega, by omega, h3, h4⟩
    · rw [if_neg hc]
      constructor
      · intro h; exact Or.inl h
      · rintro (h | ⟨j, h1, h2, h3, h4⟩)
        · exact h
        · simp only [Bool.and_eq_true, decide_eq_true_eq, not_and, Bool.not_eq_true,
            Bool.not_eq_eq_eq_not, Bool.not_true, Bool.not_eq_false] at hc
          by_cases hlt : i < data.referenceCount
          · have := hc hlt
            simp only [Bool.and_eq_true] at this
            exact this.2
          · omega

/-- With the host's length convention, the comparison of the reference argument
with slot `i` holds exactly when its bytes are the stored string. -/
theorem slotMatches_reference (V R : Option Bytes) (data : not_in_data) (i : Nat)
    (hlen : data.referenceLengths.getD i 0 = (data.references.getD i []).length) :
    slotMatches (row V R) 1 data.referenceLengths data.references i = true ↔
      buf R = storedReference data i := by
  simp only [slotMatches, row, argLength, memcmp_eq0, storedReference, List.getD_cons_succ,
    List.getD_cons_zero, Bool.and_eq_true, beq_iff_eq, List.take_length, hlen]
  constructor
  · rintro ⟨h1, h2⟩
    rw [h2, h1, List.take_length]
  · intro h
    have h1 : (buf R).length = (data.references.getD i []).length := by
      rw [h]
    refine ⟨h1, ?_⟩
    rw [h1, List.take_length]; exact h

/-! ## The value side leaves the reference array alone -/

theorem valueLoopBody_references (args : UDF_ARGS) (i : Nat) (p : ValueProbe) :
    (valueLoopBody args i p).data.referenceCount = p.data.referenceCount ∧
    (valueLoopBody args i p).data.references = p.data.references ∧
    (valueLoopBody args i p).data.referenceLengths = p.data.referenceLengths := by
  unfold valueLoopBody
  by_cases h0 : slotMatches args 0 p.data.valueLengths p.data.values i = true <;>
    by_cases h1 : slotMatches args 1 p.data.valueLengths p.data.values i = true <;>
    simp [h0, h1, removeValue]

theorem valueLoop_references (args : UDF_ARGS) :
    ∀ (fuel i : Nat) (p : ValueProbe),
      (valueLoop args fuel i p).data.referenceCount = p.data.referenceCount ∧
      (valueLoop args fuel i p).data.references = p.data.references ∧
      (valueLoop args fuel i p).data.referenceLengths = p.data.referenceLengths := by
  intro fuel
  induction fuel with
  | zero => intro i p; exact ⟨rfl, rfl, rfl⟩
  | succ fuel ih =>
    intro i p
    unfold valueLoop
    split
    · obtain ⟨h1, h2, h3⟩ := ih (i + 1) (valueLoopBody args i p)
      obtain ⟨g1, g2, g3⟩ := valueLoopBody_references args i p
      exact ⟨h1.trans g1, h2.trans g2, h3.trans g3⟩
    · exact ⟨rfl, rfl, rfl⟩

theorem insertValue_allocOk (args : UDF_ARGS) (data : not_in_data) :
    insertValue allocOk args data = .ok
      { data with
        valueCount := data.valueCount + 1
        values := (realloc [] data.values (data.valueCount + 1)).set data.valueCount
          ((buf (args.args.getD 0 none)).take (args.lengths.getD 0 0))
        valueLengths := (realloc 0 data.valueLengths (data.valueCount + 1)).set
          data.valueCount (args.lengths.getD 0 0) } := rfl

theorem insertReference_allocOk (args : UDF_ARGS) (data : not_in_data) :
    insertReference allocOk args data = .ok
      { data with
        referenceCount := data.referenceCount + 1
        references := (realloc [] data.references (data.referenceCount + 1)).set
          data.referenceCount ((buf (args.args.getD 1 none)).take (args.lengths.getD 1 0))
        referenceLengths := (realloc 0 data.referenceLengths (data.referenceCount + 1)).set
          data.referenceCount (args.lengths.getD 1 0) } := rfl

/-! ## The reference array after one `not_in_add` -/

theorem not_in_add_references_kept (data : not_in_data) (args : UDF_ARGS)
    (h : (!(referenceLoop args data data.referenceCount 0 ⟨false, false⟩).referencesHaveReference
        && (args.args.getD 1 none).isSome) = false) :
    (not_in_add allocOk data args).1.referenceCount = data.referenceCount ∧
    (not_in_add allocOk data args).1.references = data.references ∧
    (not_in_add allocOk data args).1.referenceLengths = data.referenceLengths := by
  obtain ⟨g1, g2, g3⟩ := valueLoop_references args data.valueCount 0 ⟨data, false, false⟩
  simp only at g1 g2 g3
  by_cases hg : insertValueGuard args
      (referenceLoop args data data.referenceCount 0 ⟨false, false⟩).referencesHaveValue
      (valueLoop args data.valueCount 0 ⟨data, false, false⟩).valuesHaveValue = true
  · simp only [not_in_add, hg, if_true, insertValue_allocOk, h, Bool.false_eq_true, if_false]
    exact ⟨g1, g2, g3⟩
  · simp only [not_in_add, hg, if_false, h, Bool.false_eq_true]
    exact ⟨g1, g2, g3⟩

theorem not_in_add_references_grown (data : not_in_data) (args : UDF_ARGS)
    (h : (!(referenceLoop args data data.referenceCount 0 ⟨false, false⟩).referencesHaveReference
        && (args.args.getD 1 none).isSome) = true) :
    (not_in_add allocOk data args).1.referenceCount = data.referenceCount + 1 ∧
    (not_in_add allocOk data args).1.references =
      (realloc [] data.references (data.referenceCount + 1)).set data.referenceCount
        ((buf (args.args.getD 1 none)).take (args.lengths.getD 1 0)) ∧
    (not_in_add allocOk data args).1.referenceLengths =
      (realloc 0 data.referenceLengths (data.referenceCount + 1)).set data.referenceCount
        (args.lengths.getD 1 0) := by
  obtain ⟨g1, g2, g3⟩ := valueLoop_references args data.valueCount 0 ⟨data, false, false⟩
  simp only at g1 g2 g3
  by_cases hg : insertValueGuard args
      (referenceLoop args data data.referenceCount 0 ⟨false, false⟩).referencesHaveValue
      (valueLoop args data.valueCount 0 ⟨data, false, false⟩).valuesHaveValue = true
  · simp only [not_in_add, hg, if_true, insertValue_allocOk, insertReference_allocOk, h]
    simp only [g1, g2, g3, and_self]
  · simp only [not_in_add, hg, if_false, insertReference_allocOk, h, if_true, Bool.false_eq_true]
    simp only [g1, g2, g3, and_self]

/-! ## The stored references after one row -/

theorem storedReferences_of_fields (d1 d2 : not_in_data)
    (h1 : d1.referenceCount = d2.referenceCount) (h2 : d1.references = d2.references)
    (h3 : d1.referenceLengths = d2.referenceLengths) :
    storedReferences d1 = storedReferences d2 := by
  unfold storedReferences storedReference
  rw [h1, h2, h3]

theorem RefsWF_of_fields (d1 d2 : not_in_data)
    (h1 : d1.referenceCount = d2.referenceCount) (h2 : d1.references = d2.references)
    (h3 : d1.referenceLengths = d2.referenceLengths) (h : RefsWF d2) : RefsWF d1 := by
  unfold RefsWF at h ⊢
  rw [h1, h2, h3]; exact h

theorem referencesHaveReference_iff (data : not_in_data) (V R : Option Bytes)
    (h : RefsWF data) :
    (referenceLoop (row V R) data data.referenceCount 0
        ⟨false, false⟩).referencesHaveReference = true ↔
      buf R ∈ storedReferences data := by
  rw [referenceLoop_haveReference]
  simp only [Bool.false_eq_true, false_or, Nat.zero_le, Nat.zero_add, true_and,
    storedReferences, List.mem_map, List.mem_range]
  constructor
  · rintro ⟨j, hj, _, hm⟩
    exact ⟨j, hj, ((slotMatches_reference V R data j (h.2.2 j hj)).1 hm).symm⟩
  · rintro ⟨j, hj, hm⟩
    exact ⟨j, hj, hj, (slotMatches_reference V R data j (h.2.2 j hj)).2 hm.symm⟩

/-- Growing the reference array by one slot holding `r` appends `r` to the stored
references and keeps the representation invariant. -/
theorem storedReferences_grown (data out : not_in_data) (r : Bytes) (h : RefsWF data)
    (h1 : out.referenceCount = data.referenceCount + 1)
    (h2 : out.references =
      (realloc [] data.references (data.referenceCount + 1)).set data.referenceCount r)
    (h3 : out.referenceLengths =
      (realloc 0 data.referenceLengths (data.referenceCount + 1)).set data.referenceCount
        r.length) :
    storedReferences out = storedReferences data ++ [r] ∧ RefsWF out := by
  obtain ⟨w1, w2, w3⟩ := h
  have hself : out.references.getD data.referenceCount [] = r := by
    rw [h2]; apply getD_set_self; rw [length_realloc]; omega
  have hselfLen : out.referenceLengths.getD data.referenceCount 0 = r.length := by
    rw [h3]; apply getD_set_self; rw [length_realloc]; omega
  have hold : ∀ i, i < data.referenceCount →
      out.references.getD i [] = data.references.getD i [] := by
    intro i hi
    rw [h2, getD_set_other _ _ _ _ _ (by omega), getD_realloc _ _ _ _ _ (by omega) (by omega)]
  have holdLen : ∀ i, i < data.referenceCount →
      out.referenceLengths.getD i 0 = data.referenceLengths.getD i 0 := by
    intro i hi
    rw [h3, getD_set_other _ _ _ _ _ (by omega), getD_realloc _ _ _ _ _ (by omega) (by omega)]
  refine ⟨?_, ?_, ?_, ?_⟩
  · unfold storedReferences
    rw [h1, List.range_succ, List.map_append, List.map_singleton]
    congr 1
    · apply List.map_congr_left
      intro i hi
      have hi : i < data.referenceCount := List.mem_range.1 hi
      simp only [storedReference, hold i hi, holdLen i hi]
    · simp only [storedReference, hself, hselfLen, List.take_length]
  · rw [h1, h2, List.length_set, length_realloc]
  · rw [h1, h3, List.length_set, length_realloc]
  · intro i hi
    rw [h1] at hi
    by_cases hlt : i < data.referenceCount
    · rw [hold i hlt, holdLen i hlt]; exact w3 i hlt
    · have : i = data.referenceCount := by omega
      subst this
      rw [hself, hselfLen]

/-- One row: a non-null reference not yet stored is appended, otherwise the
stored references are unchanged; the representation invariant is kept. -/
theorem addRow_references (data : not_in_data) (V R : Option Bytes) (h : RefsWF data) :
    storedReferences (addRow data (V, R)) =
        (if R.isSome = true ∧ buf R ∉ storedReferences data then
          storedReferences data ++ [buf R]
        else storedReferences data) ∧
      RefsWF (addRow data (V, R)) := by
  have hiff := referencesHaveReference_iff data V R h
  by_cases hc : R.isSome = true ∧ buf R ∉ storedReferences data
  · rw [if_pos hc]
    have hflag : (!(referenceLoop (row V R) data data.referenceCount 0
        ⟨false, false⟩).referencesHaveReference
        && ((row V R).args.getD 1 none).isSome) = true := by
      have h1 : (referenceLoop (row V R) data data.referenceCount 0
          ⟨false, false⟩).referencesHaveReference = false := by
        rw [← Bool.not_eq_true, hiff]; exact hc.2
      rw [h1]
      simpa [row] using hc.1
    obtain ⟨g1, g2, g3⟩ := not_in_add_references_grown data (row V R) hflag
    have e1 : (buf ((row V R).args.getD 1 none)).take ((row V R).lengths.getD 1 0) = buf R := by
      simp [row, argLength]
    have e2 : (row V R).lengths.getD 1 0 = (buf R).length := by
      simp [row, argLength]
    rw [e1] at g2
    rw [e2] at g3
    exact storedReferences_grown data (addRow data (V, R)) (buf R) h g1 g2 g3
  · rw [if_neg hc]
    have hflag : (!(referenceLoop (row V R) data data.referenceCount 0
        ⟨false, false⟩).referencesHaveReference
        && ((row V R).args.getD 1 none).isSome) = false := by
      by_cases hs : R.isSome = true
      · have hm : buf R ∈ storedReferences data := by
          by_contra hn; exact hc ⟨hs, hn⟩
        rw [hiff.2 hm]; rfl
      · have : ((row V R).args.getD 1 none).isSome = false := by
          simpa [row] using hs
        rw [this, Bool.and_false]
    obtain ⟨g1, g2, g3⟩ := not_in_add_references_kept data (row V R) hflag
    exact ⟨storedReferences_of_fields _ _ g1 g2 g3, RefsWF_of_fields _ _ g1 g2 g3 h⟩

/-! ## The stored references after a run -/

theorem storedReferences_of_empty (data : not_in_data) (h : EmptyState data) :
    storedReferences data = [] ∧ RefsWF data := by
  obtain ⟨h1, _⟩ := h
  refine ⟨?_, ?_, ?_, ?_⟩
  · simp [storedReferences, h1]
  · omega
  · omega
  · intro i hi; omega

theorem run_references (rows : List (Option Bytes × Option Bytes)) :
    ∀ data : not_in_data, RefsWF data → (storedReferences data).Nodup →
      RefsWF (run data rows) ∧ (storedReferences (run data rows)).Nodup ∧
      ∀ r, r ∈ storedReferences (run data rows) ↔
        r ∈ storedReferences data ∨ ∃ x ∈ rows, x.2 = some r := by
  induction rows with
  | nil =>
    intro data hwf hnd
    exact ⟨hwf, hnd, fun r => by simp [run]⟩
  | cons x rest ih =>
    intro data hwf hnd
    obtain ⟨V, R⟩ := x
    obtain ⟨hs, hwf1⟩ := addRow_references data V R hwf
    have hnd1 : (storedReferences (addRow data (V, R))).Nodup := by
      rw [hs]
      split
      · rename_i hc
        rw [List.nodup_append]
        refine ⟨hnd, List.nodup_singleton _, ?_⟩
        intro a ha hb
        rw [List.mem_singleton] at hb
        subst hb
        exact hc.2 ha
      · exact hnd
    have hmem : ∀ r, r ∈ storedReferences (addRow data (V, R)) ↔
        r ∈ storedReferences data ∨ R = some r := by
      intro r
      rw [hs]
      cases R with
      | none => simp
      | some r0 =>
        by_cases hin : r0 ∈ storedReferences data
        · simp only [buf, Option.getD_some, Option.isSome_some, hin, not_true_eq_false,
            and_false, if_false, Option.some.injEq]
          constructor
          · intro h; exact Or.inl h
          · rintro (h | h)
            · exact h
            · rw [← h]; exact hin
        · simp only [buf, Option.getD_some, Option.isSome_some, hin, not_false_eq_true,
            and_self, if_true, List.mem_append, List.mem_singleton, Option.some.injEq]
          constructor
          · rintro (h | h)
            · exact Or.inl h
            · exact Or.inr h.symm
          · rintro (h | h)
            · exact Or.inl h
            · exact Or.inr h.symm
    obtain ⟨a1, a2, a3⟩ := ih (addRow data (V, R)) hwf1 hnd1
    refine ⟨a1, a2, ?_⟩
    intro r
    have : run data ((V, R) :: rest) = run (addRow data (V, R)) rest := rfl
    rw [this, a3 r, hmem r]
    simp only [List.mem_cons, exists_eq_or_imp]
    tauto

/-! ## Loop fuel

The loops of `not_in_add` are run with as many iterations as there are live
slots on entry. More iterations change nothing: the loops end by their own
condition. -/

theorem referenceLoop_fuel (args : UDF_ARGS) (data : not_in_data) (k : Nat) :
    ∀ (fuel i : Nat) (p : ReferenceProbe), data.referenceCount ≤ i + fuel →
      referenceLoop args data (fuel + k) i p = referenceLoop args data fuel i p := by
  intro fuel
  induction fuel with
  | zero =>
    intro i p h
    cases k with
    | zero => rfl
    | succ k =>
      have hn : ¬ i < data.referenceCount := by omega
      simp [referenceLoop, hn]
  | succ fuel ih =>
    intro i p h
    have e : fuel + 1 + k = (fuel + k) + 1 := by omega
    rw [e]
    unfold referenceLoop
    split
    · exact ih (i + 1) _ (by omega)
    · rfl

theorem valueLoopBody_valueCount_le (args : UDF_ARGS) (i : Nat) (p : ValueProbe) :
    (valueLoopBody args i p).data.valueCount ≤ p.data.valueCount := by
  unfold valueLoopBody
  by_cases h0 : slotMatches args 0 p.data.valueLengths p.data.values i = true <;>
    by_cases h1 : slotMatches args 1 p.data.valueLengths p.data.values i = true <;>
    simp [h0, h1, removeValue]

theorem valueLoop_fuel (args : UDF_ARGS) (k : Nat) :
    ∀ (fuel i : Nat) (p : ValueProbe), p.data.valueCount ≤ i + fuel →
      valueLoop args (fuel + k) i p = valueLoop args fuel i p := by
  intro fuel
  induction fuel with
  | zero =>
    intro i p h
    cases k with
    | zero => rfl
    | succ k =>
      have hn : ¬ i < p.data.valueCount := by omega
      simp [valueLoop, hn]
  | succ fuel ih =>
    intro i p h
    have e : fuel + 1 + k = (fuel + k) + 1 := by omega
    rw [e]
    unfold valueLoop
    split
    · have := valueLoopBody_valueCount_le args i p
      exact ih (i + 1) _ (by omega)
    · rfl

/-! ## The empty state -/

theorem not_in_init_state (initid : UDF_INIT) (args : UDF_ARGS) (h : args.arg_count = 2) :
    (not_in_init initAllocOk initid args).ret = 0 ∧
    (not_in_init initAllocOk initid args).initid.ptr = some initState := by
  simp [not_in_init, initAllocOk, initState, h]

theorem emptyState_initState : EmptyState initState := ⟨rfl, rfl⟩

theorem emptyState_not_in_clear (data : not_in_data) : EmptyState (not_in_clear data) :=
  ⟨rfl, rfl⟩

/-! ## The value loop -/

theorem valueLoopBody_data (args : UDF_ARGS) (i : Nat) (p : ValueProbe) :
    (valueLoopBody args i p).data =
      if slotMatches args 1 p.data.valueLengths p.data.values i = true then
        removeValue p.data i
      else p.data := by
  unfold valueLoopBody
  by_cases h0 : slotMatches args 0 p.data.valueLengths p.data.values i = true <;>
    by_cases h1 : slotMatches args 1 p.data.valueLengths p.data.values i = true <;>
    simp [h0, h1]

theorem valueLoopBody_haveValue (args : UDF_ARGS) (i : Nat) (p : ValueProbe) :
    (valueLoopBody args i p).valuesHaveValue =
      (p.valuesHaveValue || slotMatches args 0 p.data.valueLengths p.data.values i) := by
  unfold valueLoopBody
  by_cases h0 : slotMatches args 0 p.data.valueLengths p.data.values i = true <;>
    by_cases h1 : slotMatches args 1 p.data.valueLengths p.data.values i = true <;>
    simp [h0, h1]

theorem valueLoopBody_haveReference (args : UDF_ARGS) (i : Nat) (p : ValueProbe) :
    (valueLoopBody args i p).valuesHaveReference = p.valuesHaveReference := by
  unfold valueLoopBody
  by_cases h0 : slotMatches args 0 p.data.valueLengths p.data.values i = true <;>
    by_cases h1 : slotMatches args 1 p.data.valueLengths p.data.values i = true <;>
    simp [h0, h1]

/-- With the host's length convention, the comparison of the value argument with
a well-formed slot holds exactly when its bytes are the stored string. -/
theorem slotMatches_row_zero (V R : Option Bytes) (lens : List Nat) (bufs : List Bytes)
    (i : Nat) (hlen : lens.getD i 0 = (bufs.getD i []).length) :
    slotMatches (row V R) 0 lens bufs i = true ↔
      buf V = (bufs.getD i []).take (lens.getD i 0) := by
  simp only [slotMatches, row, argLength, memcmp_eq0, List.getD_cons_zero, Bool.and_eq_true,
    beq_iff_eq, List.take_length, hlen]
  constructor
  · rintro ⟨h1, h2⟩
    rw [h2, h1, List.take_length]
  · intro h
    have h1 : (buf V).length = (bufs.getD i []).length := by
      rw [h]
    refine ⟨h1, ?_⟩
    rw [h1, List.take_length]; exact h

/-- With the host's length convention, the comparison of the reference argument
with a well-formed slot holds exactly when its bytes are the stored string. -/
theorem slotMatches_row_one (V R : Option Bytes) (lens : List Nat) (bufs : List Bytes)
    (i : Nat) (hlen : lens.getD i 0 = (bufs.getD i []).length) :
    slotMatches (row V R) 1 lens bufs i = true ↔
      buf R = (bufs.getD i []).take (lens.getD i 0) := by
  simp only [slotMatches, row, argLength, memcmp_eq0, List.getD_cons_succ,
    List.getD_cons_zero, Bool.and_eq_true, beq_iff_eq, List.take_length, hlen]
  constructor
  · rintro ⟨h1, h2⟩
    rw [h2, h1, List.take_length]
  · intro h
    have h1 : (buf R).length = (bufs.getD i []).length := by
      rw [h]
    refine ⟨h1, ?_⟩
    rw [h1, List.take_length]; exact h

/-- The removal of lines 368-371 at a live slot `i`: the counter drops by one,
slot `i` now stores what the last live slot stored, the other slots are
untouched, and the representation invariant is kept. -/
theorem removal_storedValue (data : not_in_data) (i : Nat) (h : ValsWF data)
    (hi : i < data.valueCount) :
    ValsWF (removeValue data i) ∧
    ∀ j, storedValue (removeValue data i) j =
      if j = i then storedValue data (data.valueCount - 1) else storedValue data j := by
  obtain ⟨w1, w2, w3⟩ := h
  have hv : ∀ j, (removeValue data i).values.getD j [] =
      if j = i then data.values.getD (data.valueCount - 1) [] else data.values.getD j [] := by
    intro j
    by_cases hj : j = i
    · subst hj
      rw [if_pos rfl]
      exact getD_set_self _ _ _ _ (by omega)
    · rw [if_neg hj]
      exact getD_set_other _ _ _ _ _ (fun e => hj e.symm)
  have hl : ∀ j, (removeValue data i).valueLengths.getD j 0 =
      if j = i then data.valueLengths.getD (data.valueCount - 1) 0
      else data.valueLengths.getD j 0 := by
    intro j
    by_cases hj : j = i
    · subst hj
      rw [if_pos rfl]
      exact getD_set_self _ _ _ _ (by omega)
    · rw [if_neg hj]
      exact getD_set_other _ _ _ _ _ (fun e => hj e.symm)
  refine ⟨⟨?_, ?_, ?_⟩, ?_⟩
  · show data.valueCount - 1 ≤ (data.values.set i _).length
    rw [List.length_set]; omega
  · show data.valueCount - 1 ≤ (data.valueLengths.set i _).length
    rw [List.length_set]; omega
  · intro j hj
    have hj1 : j < data.valueCount - 1 := hj
    rw [hv j, hl j]
    by_cases hji : j = i
    · rw [if_pos hji, if_pos hji]; exact w3 _ (by omega)
    · rw [if_neg hji, if_neg hji]; exact w3 _ (by omega)
  · intro j
    unfold storedValue
    rw [hv j, hl j]
    by_cases hji : j = i
    · rw [if_pos hji, if_pos hji, if_pos hji]
    · rw [if_neg hji, if_neg hji, if_neg hji]

theorem mem_storedValues (data : not_in_data) (v : Bytes) :
    v ∈ storedValues data ↔ ∃ j, j < data.valueCount ∧ storedValue data j = v := by
  simp [storedValues]

theorem mem_storedReferences (data : not_in_data) (r : Bytes) :
    r ∈ storedReferences data ↔ ∃ j, j < data.referenceCount ∧ storedReference data j = r := by
  simp [storedReferences]

theorem valueLoopBody_ValsWF (args : UDF_ARGS) (i : Nat) (p : ValueProbe)
    (h : ValsWF p.data) (hi : i < p.data.valueCount) :
    ValsWF (valueLoopBody args i p).data := by
  rw [valueLoopBody_data]
  split
  · exact (removal_storedValue p.data i h hi).1
  · exact h

/-- One iteration stores nothing new. -/
theorem valueLoopBody_subset (args : UDF_ARGS) (i : Nat) (p : ValueProbe)
    (h : ValsWF p.data) (hi : i < p.data.valueCount) (v : Bytes)
    (hv : v ∈ storedValues (valueLoopBody args i p).data) : v ∈ storedValues p.data := by
  rw [valueLoopBody_data] at hv
  split at hv
  · obtain ⟨j, hj, hjv⟩ := (mem_storedValues _ v).1 hv
    have hj1 : j < p.data.valueCount - 1 := hj
    rw [(removal_storedValue p.data i h hi).2 j] at hjv
    by_cases hji : j = i
    · rw [if_pos hji] at hjv
      exact (mem_storedValues _ v).2 ⟨p.data.valueCount - 1, by omega, hjv⟩
    · rw [if_neg hji] at hjv
      exact (mem_storedValues _ v).2 ⟨j, by omega, hjv⟩
  · exact hv

/-- One iteration removes nothing but a slot storing the reference argument. -/
theorem valueLoopBody_keep (V R : Option Bytes) (i : Nat) (p : ValueProbe)
    (h : ValsWF p.data) (hi : i < p.data.valueCount) (v : Bytes)
    (hv : v ∈ storedValues p.data) (hne : v ≠ buf R) :
    v ∈ storedValues (valueLoopBody (row V R) i p).data := by
  rw [valueLoopBody_data]
  split
  · rename_i hm
    have hslot : buf R = storedValue p.data i :=
      (slotMatches_row_one V R _ _ i (h.2.2 i hi)).1 hm
    obtain ⟨k, hk, hkv⟩ := (mem_storedValues _ v).1 hv
    have hki : k ≠ i := by
      intro e; subst e; exact hne (hkv.symm.trans hslot.symm)
    have hst := (removal_storedValue p.data i h hi).2
    by_cases hlast : k = p.data.valueCount - 1
    · refine (mem_storedValues _ v).2 ⟨i, ?_, ?_⟩
      · show i < p.data.valueCount - 1
        omega
      · rw [hst i, if_pos rfl, ← hlast]; exact hkv
    · refine (mem_storedValues _ v).2 ⟨k, ?_, ?_⟩
      · show k < p.data.valueCount - 1
        omega
      · rw [hst k, if_neg hki]; exact hkv
  · exact hv

theorem valueLoop_ValsWF (args : UDF_ARGS) :
    ∀ (fuel i : Nat) (p : ValueProbe), ValsWF p.data →
      ValsWF (valueLoop args fuel i p).data := by
  intro fuel
  induction fuel with
  | zero => intro i p h; exact h
  | succ fuel ih =>
    intro i p h
    unfold valueLoop
    split
    · rename_i hc
      have hi : i < p.data.valueCount := by
        simp only [Bool.and_eq_true, decide_eq_true_eq] at hc; exact hc.1
      exact ih (i + 1) _ (valueLoopBody_ValsWF args i p h hi)
    · exact h

/-- The value loop stores nothing new. -/
theorem valueLoop_subset (args : UDF_ARGS) (v : Bytes) :
    ∀ (fuel i : Nat) (p : ValueProbe), ValsWF p.data →
      v ∈ storedValues (valueLoop args fuel i p).data → v ∈ storedValues p.data := by
  intro fuel
  induction fuel with
  | zero => intro i p _ hv; exact hv
  | succ fuel ih =>
    intro i p h hv
    unfold valueLoop at hv
    split at hv
    · rename_i hc
      have hi : i < p.data.valueCount := by
        simp only [Bool.and_eq_true, decide_eq_true_eq] at hc; exact hc.1
      exact valueLoopBody_subset args i p h hi v
        (ih (i + 1) _ (valueLoopBody_ValsWF args i p h hi) hv)
    · exact hv

/-- The value loop removes nothing but slots storing the reference argument. -/
theorem valueLoop_keep (V R : Option Bytes) (v : Bytes) (hne : v ≠ buf R) :
    ∀ (fuel i : Nat) (p : ValueProbe), ValsWF p.data →
      v ∈ storedValues p.data → v ∈ storedValues (valueLoop (row V R) fuel i p).data := by
  intro fuel
  induction fuel with
  | zero => intro i p _ hv; exact hv
  | succ fuel ih =>
    intro i p h hv
    unfold valueLoop
    split
    · rename_i hc
      have hi : i < p.data.valueCount := by
        simp only [Bool.and_eq_true, decide_eq_true_eq] at hc; exact hc.1
      exact ih (i + 1) _ (valueLoopBody_ValsWF (row V R) i p h hi)
        (valueLoopBody_keep V R i p h hi v hv hne)
    · exact hv

/-- The flag `valuesHaveValue` is raised only for a stored value. -/
theorem valueLoop_haveValue_sound (V R : Option Bytes) :
    ∀ (fuel i : Nat) (p : ValueProbe), ValsWF p.data →
      (valueLoop (row V R) fuel i p).valuesHaveValue = true →
      p.valuesHaveValue = true ∨ buf V ∈ storedValues p.data := by
  intro fuel
  induction fuel with
  | zero => intro i p _ hv; exact Or.inl hv
  | succ fuel ih =>
    intro i p h hv
    unfold valueLoop at hv
    split at hv
    · rename_i hc
      have hi : i < p.data.valueCount := by
        simp only [Bool.and_eq_true, decide_eq_true_eq] at hc; exact hc.1
      rcases ih (i + 1) _ (valueLoopBody_ValsWF (row V R) i p h hi) hv with h1 | h1
      · rw [valueLoopBody_haveValue, Bool.or_eq_true] at h1
        rcases h1 with h1 | h1
        · exact Or.inl h1
        · right
          exact (mem_storedValues _ _).2
            ⟨i, hi, ((slotMatches_row_zero V R _ _ i (h.2.2 i hi)).1 h1).symm⟩
      · exact Or.inr (valueLoopBody_subset (row V R) i p h hi _ h1)
    · exact Or.inl hv

/-! ## The value loop, slot by slot -/

theorem valueLoop_haveReference (args : UDF_ARGS) :
    ∀ (fuel i : Nat) (p : ValueProbe),
      (valueLoop args fuel i p).valuesHaveReference = p.valuesHaveReference := by
  intro fuel
  induction fuel with
  | zero => intro i p; rfl
  | succ fuel ih =>
    intro i p
    unfold valueLoop
    split
    · rw [ih, valueLoopBody_haveReference]
    · rfl

/-- Once the loop condition fails at an index it fails at every later one. -/
theorem valueLoop_stop (args : UDF_ARGS) (i : Nat) (p : ValueProbe)
    (hc : (decide (i < p.data.valueCount)
      && !(p.valuesHaveValue && p.valuesHaveReference)) = false) :
    ∀ (fuel k : Nat), i ≤ k → valueLoop args fuel k p = p := by
  intro fuel k hk
  cases fuel with
  | zero => rfl
  | succ fuel =>
    unfold valueLoop
    have hc1 : (decide (k < p.data.valueCount)
        && !(p.valuesHaveValue && p.valuesHaveReference)) = false := by
      simp only [Bool.and_eq_false_iff, decide_eq_false_iff_not] at hc ⊢
      rcases hc with hc | hc
      · left; omega
      · right; exact hc
    rw [hc1]
    rfl

/-- Running `a + b` iterations is running `a` of them and then `b` more. -/
theorem valueLoop_split (args : UDF_ARGS) (b : Nat) :
    ∀ (a i : Nat) (p : ValueProbe),
      valueLoop args (a + b) i p = valueLoop args b (i + a) (valueLoop args a i p) := by
  intro a
  induction a with
  | zero => intro i p; simp [valueLoop]
  | succ a ih =>
    intro i p
    have e : a + 1 + b = (a + b) + 1 := by omega
    rw [e]
    cases hc : (decide (i < p.data.valueCount)
        && !(p.valuesHaveValue && p.valuesHaveReference)) with
    | true =>
      have l1 : valueLoop args (a + b + 1) i p
          = valueLoop args (a + b) (i + 1) (valueLoopBody args i p) := by
        rw [valueLoop, if_pos hc]
      have l2 : valueLoop args (a + 1) i p
          = valueLoop args a (i + 1) (valueLoopBody args i p) := by
        rw [valueLoop, if_pos hc]
      rw [l1, l2, ih]
      have e2 : i + 1 + a = i + (a + 1) := by omega
      rw [e2]
    | false =>
      rw [valueLoop_stop args i p hc (a + b + 1) i (le_refl _),
        valueLoop_stop args i p hc (a + 1) i (le_refl _),
        valueLoop_stop args i p hc b (i + (a + 1)) (by omega)]

/-- Over a range of slots none of which stores the reference argument, the loop
leaves the state as it is and raises `valuesHaveValue` exactly when one of the
slots stores the value argument. -/
theorem valueLoop_noMatch (V R : Option Bytes) :
    ∀ (fuel i : Nat) (p : ValueProbe), ValsWF p.data →
      (∀ k, i ≤ k → k < i + fuel → k < p.data.valueCount →
        storedValue p.data k ≠ buf R) →
      (valueLoop (row V R) fuel i p).data = p.data ∧
      ((valueLoop (row V R) fuel i p).valuesHaveValue = true ↔
        p.valuesHaveValue = true ∨
        ∃ k, i ≤ k ∧ k < i + fuel ∧ k < p.data.valueCount ∧
          storedValue p.data k = buf V) := by
  intro fuel
  induction fuel with
  | zero =>
    intro i p _ _
    refine ⟨rfl, ?_⟩
    simp only [valueLoop]
    constructor
    · intro h; exact Or.inl h
    · rintro (h | ⟨k, h1, h2, _⟩)
      · exact h
      · omega
  | succ fuel ih =>
    intro i p hwf hno
    cases hc : (decide (i < p.data.valueCount)
        && !(p.valuesHaveValue && p.valuesHaveReference)) with
    | true =>
      have hi : i < p.data.valueCount := by
        simp only [Bool.and_eq_true, decide_eq_true_eq] at hc; exact hc.1
      have hnm : ¬ slotMatches (row V R) 1 p.data.valueLengths p.data.values i = true := by
        intro hm
        exact hno i (le_refl _) (by omega) hi
          ((slotMatches_row_one V R _ _ i (hwf.2.2 i hi)).1 hm).symm
      have hd : (valueLoopBody (row V R) i p).data = p.data := by
        rw [valueLoopBody_data, if_neg hnm]
      have l1 : valueLoop (row V R) (fuel + 1) i p
          = valueLoop (row V R) fuel (i + 1) (valueLoopBody (row V R) i p) := by
        rw [valueLoop, if_pos hc]
      obtain ⟨a1, a2⟩ := ih (i + 1) (valueLoopBody (row V R) i p) (by rw [hd]; exact hwf)
        (by
          rw [hd]
          intro k h1 h2 h3
          exact hno k (by omega) (by omega) h3)
      rw [l1]
      refine ⟨a1.trans hd, ?_⟩
      rw [a2, hd, valueLoopBody_haveValue, Bool.or_eq_true]
      constructor
      · rintro ((h | h) | ⟨k, h1, h2, h3, h4⟩)
        · exact Or.inl h
        · exact Or.inr ⟨i, le_refl _, by omega, hi,
            ((slotMatches_row_zero V R _ _ i (hwf.2.2 i hi)).1 h).symm⟩
        · exact Or.inr ⟨k, by omega, by omega, h3, h4⟩
      · rintro (h | ⟨k, h1, h2, h3, h4⟩)
        · exact Or.inl (Or.inl h)
        · by_cases hki : k = i
          · subst hki
            exact Or.inl (Or.inr
              ((slotMatches_row_zero V R _ _ k (hwf.2.2 k hi)).2 h4.symm))
          · exact Or.inr ⟨k, by omega, by omega, h3, h4⟩
    | false =>
      rw [valueLoop_stop (row V R) i p hc (fuel + 1) i (le_refl _)]
      refine ⟨rfl, ?_⟩
      constructor
      · intro h; exact Or.inl h
      · rintro (h | ⟨k, h1, h2, h3, h4⟩)
        · exact h
        · simp only [Bool.and_eq_false_iff, decide_eq_false_iff_not, Bool.not_eq_false',
            Bool.and_eq_true] at hc
          rcases hc with hc | hc
          · omega
          · exact hc.1

/-- When no live slot stores the reference argument the value loop changes
nothing and raises `valuesHaveValue` exactly when the value argument is
stored. -/
theorem valueLoop_absent (V R : Option Bytes) (data : not_in_data) (h : ValsWF data)
    (hno : buf R ∉ storedValues data) :
    (valueLoop (row V R) data.valueCount 0 ⟨data, false, false⟩).data = data ∧
    ((valueLoop (row V R) data.valueCount 0 ⟨data, false, false⟩).valuesHaveValue = true ↔
      buf V ∈ storedValues data) := by
  obtain ⟨a1, a2⟩ := valueLoop_noMatch V R data.valueCount 0 ⟨data, false, false⟩ h
    (by
      intro k _ _ hk e
      exact hno ((mem_storedValues _ _).2 ⟨k, hk, e⟩))
  refine ⟨a1, ?_⟩
  rw [a2, mem_storedValues]
  simp only [Bool.false_eq_true, false_or, Nat.zero_le, Nat.zero_add, true_and]
  constructor
  · rintro ⟨k, h1, _, h3⟩; exact ⟨k, h1, h3⟩
  · rintro ⟨k, h1, h3⟩; exact ⟨k, h1, h1, h3⟩

/-- When exactly one live slot `j` stores the reference argument, the value loop
removes it, and raises `valuesHaveValue` exactly when the value argument is
stored in slot `j` or in a slot other than the last: the last slot, moved into
slot `j`, is not compared. -/
theorem valueLoop_present (V R : Option Bytes) (data : not_in_data) (j : Nat)
    (h : ValsWF data) (hj : j < data.valueCount) (hm : storedValue data j = buf R)
    (huniq : ∀ k, k < data.valueCount → k ≠ j → storedValue data k ≠ buf R) :
    (valueLoop (row V R) data.valueCount 0 ⟨data, false, false⟩).data = removeValue data j ∧
    ((valueLoop (row V R) data.valueCount 0 ⟨data, false, false⟩).valuesHaveValue = true ↔
      ∃ k, k < data.valueCount ∧ (k < data.valueCount - 1 ∨ k = j) ∧
        storedValue data k = buf V) := by
  have e : data.valueCount = j + (1 + (data.valueCount - j - 1)) := by omega
  have hsplit : valueLoop (row V R) data.valueCount 0 ⟨data, false, false⟩ =
      valueLoop (row V R) (data.valueCount - j - 1) (j + 1)
        (valueLoop (row V R) 1 j (valueLoop (row V R) j 0 ⟨data, false, false⟩)) := by
    have l1 := valueLoop_split (row V R) (1 + (data.valueCount - j - 1)) j 0
      ⟨data, false, false⟩
    have l2 := valueLoop_split (row V R) (data.valueCount - j - 1) 1 (0 + j)
      (valueLoop (row V R) j 0 ⟨data, false, false⟩)
    rw [← e] at l1
    rw [l1, l2, Nat.zero_add]
  -- the slots before `j`
  obtain ⟨a1, a2⟩ := valueLoop_noMatch V R j 0 ⟨data, false, false⟩ h
    (by
      intro k _ hk2 hk3
      exact huniq k hk3 (by omega))
  have a3 := valueLoop_haveReference (row V R) j 0 ⟨data, false, false⟩
  simp only at a1 a3
  -- the iteration at `j`
  have hc : (decide (j < (valueLoop (row V R) j 0 ⟨data, false, false⟩).data.valueCount)
      && !((valueLoop (row V R) j 0 ⟨data, false, false⟩).valuesHaveValue
        && (valueLoop (row V R) j 0 ⟨data, false, false⟩).valuesHaveReference)) = true := by
    rw [a1, a3]
    simp [hj]
  have hone : valueLoop (row V R) 1 j (valueLoop (row V R) j 0 ⟨data, false, false⟩) =
      valueLoopBody (row V R) j (valueLoop (row V R) j 0 ⟨data, false, false⟩) := by
    rw [valueLoop, if_pos hc]
    rfl
  have hmatch : slotMatches (row V R) 1 data.valueLengths data.values j = true :=
    (slotMatches_row_one V R _ _ j (h.2.2 j hj)).2 hm.symm
  have b1 : (valueLoopBody (row V R) j
      (valueLoop (row V R) j 0 ⟨data, false, false⟩)).data = removeValue data j := by
    rw [valueLoopBody_data, a1, if_pos hmatch]
  obtain ⟨hwf2, hst⟩ := removal_storedValue data j h hj
  -- the slots after `j`
  obtain ⟨c1, c2⟩ := valueLoop_noMatch V R (data.valueCount - j - 1) (j + 1)
    (valueLoopBody (row V R) j (valueLoop (row V R) j 0 ⟨data, false, false⟩))
    (by rw [b1]; exact hwf2)
    (by
      rw [b1]
      intro k hk1 _ hk3
      have hk3 : k < data.valueCount - 1 := hk3
      rw [hst k, if_neg (by omega)]
      exact huniq k (by omega) (by omega))
  rw [hsplit, hone]
  refine ⟨c1.trans b1, ?_⟩
  rw [c2, b1, valueLoopBody_haveValue, Bool.or_eq_true, a2, a1]
  simp only [Bool.false_eq_true, false_or, Nat.zero_le, Nat.zero_add, true_and]
  have hcount : (removeValue data j).valueCount = data.valueCount - 1 := rfl
  constructor
  · rintro ((⟨k, h1, h2, h3⟩ | hm0) | ⟨k, h1, h2, h3, h4⟩)
    · exact ⟨k, h2, Or.inl (by omega), h3⟩
    · exact ⟨j, hj, Or.inr rfl,
        ((slotMatches_row_zero V R _ _ j (h.2.2 j hj)).1 hm0).symm⟩
    · rw [hcount] at h3
      rw [hst k, if_neg (by omega)] at h4
      exact ⟨k, by omega, Or.inl h3, h4⟩
  · rintro ⟨k, h1, h2, h3⟩
    by_cases hkj : k < j
    · exact Or.inl (Or.inl ⟨k, hkj, h1, h3⟩)
    · by_cases hkj2 : k = j
      · subst hkj2
        exact Or.inl (Or.inr ((slotMatches_row_zero V R _ _ k (h.2.2 k hj)).2 h3.symm))
      · have hlt : k < data.valueCount - 1 := by
          rcases h2 with h2 | h2
          · exact h2
          · exact absurd h2 hkj2
        right
        refine ⟨k, by omega, by omega, ?_, ?_⟩
        · rw [hcount]; exact hlt
        · rw [hst k, if_neg hkj2]; exact h3

theorem nodup_storedValues_iff (data : not_in_data) :
    (storedValues data).Nodup ↔
      ∀ a b, a < data.valueCount → b < data.valueCount →
        storedValue data a = storedValue data b → a = b := by
  unfold storedValues
  rw [List.nodup_map_iff_inj_on (List.nodup_range _)]
  simp only [List.mem_range]
  constructor
  · intro h a b ha hb e; exact h a ha b hb e
  · intro h a ha b hb e; exact h a b ha hb e

/-- Removing a live slot of a duplicate-free value array leaves it
duplicate-free. -/
theorem removeValue_nodup (data : not_in_data) (j : Nat) (h : ValsWF data)
    (hj : j < data.valueCount) (hnd : (storedValues data).Nodup) :
    (storedValues (removeValue data j)).Nodup := by
  rw [nodup_storedValues_iff] at hnd ⊢
  have hst := (removal_storedValue data j h hj).2
  intro a b ha hb e
  have ha : a < data.valueCount - 1 := ha
  have hb : b < data.valueCount - 1 := hb
  rw [hst a, hst b] at e
  by_cases haj : a = j
  · by_cases hbj : b = j
    · rw [haj, hbj]
    · rw [if_pos haj, if_neg hbj] at e
      have := hnd _ _ (by omega) (by omega) e
      omega
  · by_cases hbj : b = j
    · rw [if_neg haj, if_pos hbj] at e
      have := hnd _ _ (by omega) (by omega) e
      omega
    · rw [if_neg haj, if_neg hbj] at e
      exact hnd _ _ (by omega) (by omega) e

/-- Removing a live slot of a duplicate-free value array removes the string it
stores and nothing else. -/
theorem mem_storedValues_removeValue (data : not_in_data) (j : Nat) (h : ValsWF data)
    (hj : j < data.valueCount) (hnd : (storedValues data).Nodup) (v : Bytes) :
    v ∈ storedValues (removeValue data j) ↔
      v ∈ storedValues data ∧ v ≠ storedValue data j := by
  rw [nodup_storedValues_iff] at hnd
  have hst := (removal_storedValue data j h hj).2
  rw [mem_storedValues, mem_storedValues]
  constructor
  · rintro ⟨k, hk, hkv⟩
    have hk : k < data.valueCount - 1 := hk
    rw [hst k] at hkv
    by_cases hkj : k = j
    · rw [if_pos hkj] at hkv
      refine ⟨⟨data.valueCount - 1, by omega, hkv⟩, ?_⟩
      intro e
      have := hnd _ _ (by omega) hj (hkv.trans e)
      omega
    · rw [if_neg hkj] at hkv
      refine ⟨⟨k, by omega, hkv⟩, ?_⟩
      intro e
      exact hkj (hnd _ _ (by omega) hj (hkv.trans e))
  · rintro ⟨⟨k, hk, hkv⟩, hne⟩
    have hkj : k ≠ j := by
      intro e; subst e; exact hne hkv.symm
    by_cases hlast : k = data.valueCount - 1
    · refine ⟨j, ?_, ?_⟩
      · show j < data.valueCount - 1
        omega
      · rw [hst j, if_pos rfl, ← hlast]; exact hkv
    · refine ⟨k, ?_, ?_⟩
      · show k < data.valueCount - 1
        omega
      · rw [hst k, if_neg hkj]; exact hkv

/-! ## The value array after one `not_in_add` -/

theorem referenceLoopBody_haveValue (args : UDF_ARGS) (data : not_in_data) (i : Nat)
    (p : ReferenceProbe) :
    (referenceLoopBody args data i p).referencesHaveValue =
      (p.referencesHaveValue
        || slotMatches args 0 data.referenceLengths data.references i) := by
  unfold referenceLoopBody
  cases slotMatches args 1 data.referenceLengths data.references i <;>
    cases slotMatches args 0 data.referenceLengths data.references i <;> simp

theorem referenceLoop_haveValue (args : UDF_ARGS) (data : not_in_data) :
    ∀ (fuel i : Nat) (p : ReferenceProbe),
      (referenceLoop args data fuel i p).referencesHaveValue = true ↔
        p.referencesHaveValue = true ∨
        ∃ j, i ≤ j ∧ j < i + fuel ∧ j < data.referenceCount ∧
          slotMatches args 0 data.referenceLengths data.references j = true := by
  intro fuel
  induction fuel with
  | zero =>
    intro i p
    simp only [referenceLoop]
    constructor
    · intro h; exact Or.inl h
    · rintro (h | ⟨j, h1, h2, _⟩)
      · exact h
      · omega
  | succ fuel ih =>
    intro i p
    unfold referenceLoop
    by_cases hc : (decide (i < data.referenceCount)
        && !(p.referencesHaveValue && p.referencesHaveReference)) = true
    · rw [if_pos hc, ih, referenceLoopBody_haveValue, Bool.or_eq_true]
      have hlt : i < data.referenceCount := by
        simp only [Bool.and_eq_true, decide_eq_true_eq] at hc; exact hc.1
      constructor
      · rintro ((h | h) | ⟨j, h1, h2, h3, h4⟩)
        · exact Or.inl h
        · exact Or.inr ⟨i, le_refl _, by omega, hlt, h⟩
        · exact Or.inr ⟨j, by omega, by omega, h3, h4⟩
      · rintro (h | ⟨j, h1, h2, h3, h4⟩)
        · exact Or.inl (Or.inl h)
        · by_cases hji : j = i
          · subst hji
            exact Or.inl (Or.inr h4)
          · exact Or.inr ⟨j, by omega, by omega, h3, h4⟩
    · rw [if_neg hc]
      constructor
      · intro h; exact Or.inl h
      · rintro (h | ⟨j, h1, h2, h3, h4⟩)
        · exact h
        · simp only [Bool.and_eq_true, decide_eq_true_eq, not_and, Bool.not_eq_true,
            Bool.not_eq_eq_eq_not, Bool.not_true, Bool.not_eq_false] at hc
          by_cases hlt : i < data.referenceCount
          · have := hc hlt
            simp only [Bool.and_eq_true] at this
            exact this.1
          · omega

theorem referencesHaveValue_iff (data : not_in_data) (V R : Option Bytes)
    (h : RefsWF data) :
    (referenceLoop (row V R) data data.referenceCount 0
        ⟨false, false⟩).referencesHaveValue = true ↔
      buf V ∈ storedReferences data := by
  rw [referenceLoop_haveValue, mem_storedReferences]
  simp only [Bool.false_eq_true, false_or, Nat.zero_le, Nat.zero_add, true_and]
  constructor
  · rintro ⟨j, hj, _, hm⟩
    exact ⟨j, hj, ((slotMatches_row_zero V R _ _ j (h.2.2 j hj)).1 hm).symm⟩
  · rintro ⟨j, hj, hm⟩
    exact ⟨j, hj, hj, (slotMatches_row_zero V R _ _ j (h.2.2 j hj)).2 hm.symm⟩

/-- The value fields of the result of `not_in_add`, every allocation succeeding,
are those left by the value loop, followed by the insertion when its guard
holds. -/
theorem not_in_add_values (data : not_in_data) (args : UDF_ARGS) :
    (not_in_add allocOk data args).1.valueCount =
      (if insertValueGuard args
          (referenceLoop args data data.referenceCount 0 ⟨false, false⟩).referencesHaveValue
          (valueLoop args data.valueCount 0 ⟨data, false, false⟩).valuesHaveValue = true then
        (valueLoop args data.valueCount 0 ⟨data, false, false⟩).data.valueCount + 1
      else (valueLoop args data.valueCount 0 ⟨data, false, false⟩).data.valueCount) ∧
    (not_in_add allocOk data args).1.values =
      (if insertValueGuard args
          (referenceLoop args data data.referenceCount 0 ⟨false, false⟩).referencesHaveValue
          (valueLoop args data.valueCount 0 ⟨data, false, false⟩).valuesHaveValue = true then
        (realloc [] (valueLoop args data.valueCount 0 ⟨data, false, false⟩).data.values
          ((valueLoop args data.valueCount 0 ⟨data, false, false⟩).data.valueCount + 1)).set
          (valueLoop args data.valueCount 0 ⟨data, false, false⟩).data.valueCount
          ((buf (args.args.getD 0 none)).take (args.lengths.getD 0 0))
      else (valueLoop args data.valueCount 0 ⟨data, false, false⟩).data.values) ∧
    (not_in_add allocOk data args).1.valueLengths =
      (if insertValueGuard args
          (referenceLoop args data data.referenceCount 0 ⟨false, false⟩).referencesHaveValue
          (valueLoop args data.valueCount 0 ⟨data, false, false⟩).valuesHaveValue = true then
        (realloc 0 (valueLoop args data.valueCount 0 ⟨data, false, false⟩).data.valueLengths
          ((valueLoop args data.valueCount 0 ⟨data, false, false⟩).data.valueCount + 1)).set
          (valueLoop args data.valueCount 0 ⟨data, false, false⟩).data.valueCount
          (args.lengths.getD 0 0)
      else (valueLoop args data.valueCount 0 ⟨data, false, false⟩).data.valueLengths) := by
  by_cases hg : insertValueGuard args
      (referenceLoop args data data.referenceCount 0 ⟨false, false⟩).referencesHaveValue
      (valueLoop args data.valueCount 0 ⟨data, false, false⟩).valuesHaveValue = true <;>
    cases hr : (!(referenceLoop args data data.referenceCount 0
        ⟨false, false⟩).referencesHaveReference && (args.args.getD 1 none).isSome) <;>
    simp only [not_in_add, hg, hr, if_true, if_false, insertValue_allocOk,
      insertReference_allocOk, and_self, Bool.false_eq_true]

theorem storedValues_of_fields (d1 d2 : not_in_data)
    (h1 : d1.valueCount = d2.valueCount) (h2 : d1.values = d2.values)
    (h3 : d1.valueLengths = d2.valueLengths) :
    storedValues d1 = storedValues d2 := by
  unfold storedValues storedValue
  rw [h1, h2, h3]

theorem ValsWF_of_fields (d1 d2 : not_in_data)
    (h1 : d1.valueCount = d2.valueCount) (h2 : d1.values = d2.values)
    (h3 : d1.valueLengths = d2.valueLengths) (h : ValsWF d2) : ValsWF d1 := by
  unfold ValsWF at h ⊢
  rw [h1, h2, h3]; exact h

/-- Growing the value array by one slot holding `v` appends `v` to the stored
values and keeps the representation invariant. -/
theorem storedValues_grown (data out : not_in_data) (v : Bytes) (h : ValsWF data)
    (h1 : out.valueCount = data.valueCount + 1)
    (h2 : out.values = (realloc [] data.values (data.valueCount + 1)).set data.valueCount v)
    (h3 : out.valueLengths =
      (realloc 0 data.valueLengths (data.valueCount + 1)).set data.valueCount v.length) :
    storedValues out = storedValues data ++ [v] ∧ ValsWF out := by
  obtain ⟨w1, w2, w3⟩ := h
  have hself : out.values.getD data.valueCount [] = v := by
    rw [h2]; apply getD_set_self; rw [length_realloc]; omega
  have hselfLen : out.valueLengths.getD data.valueCount 0 = v.length := by
    rw [h3]; apply getD_set_self; rw [length_realloc]; omega
  have hold : ∀ i, i < data.valueCount → out.values.getD i [] = data.values.getD i [] := by
    intro i hi
    rw [h2, getD_set_other _ _ _ _ _ (by omega), getD_realloc _ _ _ _ _ (by omega) (by omega)]
  have holdLen : ∀ i, i < data.valueCount →
      out.valueLengths.getD i 0 = data.valueLengths.getD i 0 := by
    intro i hi
    rw [h3, getD_set_other _ _ _ _ _ (by omega), getD_realloc _ _ _ _ _ (by omega) (by omega)]
  refine ⟨?_, ?_, ?_, ?_⟩
  · unfold storedValues
    rw [h1, List.range_succ, List.map_append, List.map_singleton]
    congr 1
    · apply List.map_congr_left
      intro i hi
      have hi : i < data.valueCount := List.mem_range.1 hi
      simp only [storedValue, hold i hi, holdLen i hi]
    · simp only [storedValue, hself, hselfLen, List.take_length]
  · rw [h1, h2, List.length_set, length_realloc]
  · rw [h1, h3, List.length_set, length_realloc]
  · intro i hi
    rw [h1] at hi
    by_cases hlt : i < data.valueCount
    · rw [hold i hlt, holdLen i hlt]; exact w3 i hlt
    · have : i = data.valueCount := by omega
      subst this
      rw [hself, hselfLen]

/-- One row, every allocation succeeding: the stored values are those left by the
value loop, with the bytes of the value argument appended when the insertion
guard holds; the representation invariant is kept. -/
theorem addRow_values (data : not_in_data) (V R : Option Bytes) (h : ValsWF data) :
    storedValues (addRow data (V, R)) =
        (if insertValueGuard (row V R)
            (referenceLoop (row V R) data data.referenceCount 0
              ⟨false, false⟩).referencesHaveValue
            (valueLoop (row V R) data.valueCount 0
              ⟨data, false, false⟩).valuesHaveValue = true then
          storedValues (valueLoop (row V R) data.valueCount 0 ⟨data, false, false⟩).data
            ++ [buf V]
        else storedValues (valueLoop (row V R) data.valueCount 0 ⟨data, false, false⟩).data) ∧
      ValsWF (addRow data (V, R)) := by
  have hwf := valueLoop_ValsWF (row V R) data.valueCount 0 ⟨data, false, false⟩ h
  obtain ⟨g1, g2, g3⟩ := not_in_add_values data (row V R)
  split
  · rename_i hg
    rw [if_pos hg] at g1 g2 g3
    have e1 : (buf ((row V R).args.getD 0 none)).take ((row V R).lengths.getD 0 0) = buf V := by
      simp [row, argLength]
    have e2 : (row V R).lengths.getD 0 0 = (buf V).length := by
      simp [row, argLength]
    rw [e1] at g2
    rw [e2] at g3
    exact storedValues_grown _ (addRow data (V, R)) (buf V) hwf g1 g2 g3
  · rename_i hg
    rw [if_neg hg] at g1 g2 g3
    exact ⟨storedValues_of_fields _ _ g1 g2 g3, ValsWF_of_fields _ _ g1 g2 g3 hwf⟩

/-- One row stores nothing but what was stored and the bytes of its value
argument. -/
theorem addRow_values_subset (data : not_in_data) (V R : Option Bytes) (h : ValsWF data)
    (v : Bytes) (hv : v ∈ storedValues (addRow data (V, R))) :
    v ∈ storedValues data ∨ v = buf V := by
  rw [(addRow_values data V R h).1] at hv
  split at hv
  · rcases List.mem_append.1 hv with h1 | h1
    · exact Or.inl (valueLoop_subset _ v _ _ _ h h1)
    · exact Or.inr (List.mem_singleton.1 h1)
  · exact Or.inl (valueLoop_subset _ v _ _ _ h hv)

/-- One row removes from the stored values nothing but the bytes of its reference
argument. -/
theorem addRow_values_keep (data : not_in_data) (V R : Option Bytes) (h : ValsWF data)
    (v : Bytes) (hv : v ∈ storedValues data) (hne : v ≠ buf R) :
    v ∈ storedValues (addRow data (V, R)) := by
  rw [(addRow_values data V R h).1]
  have hk := valueLoop_keep V R v hne data.valueCount 0 ⟨data, false, false⟩ h hv
  split
  · exact List.mem_append.2 (Or.inl hk)
  · exact hk

/-- One row stores the bytes of its value argument when they are not a stored
reference and differ from the bytes of its reference argument. -/
theorem addRow_values_gain (data : not_in_data) (V R : Option Bytes) (h : ValsWF data)
    (hr : RefsWF data) (hnr : buf V ∉ storedReferences data) (hne : buf V ≠ buf R) :
    buf V ∈ storedValues (addRow data (V, R)) := by
  by_cases hin : buf V ∈ storedValues data
  · exact addRow_values_keep data V R h (buf V) hin hne
  · rw [(addRow_values data V R h).1]
    have f1 : (referenceLoop (row V R) data data.referenceCount 0
        ⟨false, false⟩).referencesHaveValue = false := by
      rw [← Bool.not_eq_true, referencesHaveValue_iff data V R hr]; exact hnr
    have f2 : (valueLoop (row V R) data.valueCount 0
        ⟨data, false, false⟩).valuesHaveValue = false := by
      rw [← Bool.not_eq_true]
      intro ht
      rcases valueLoop_haveValue_sound V R data.valueCount 0 ⟨data, false, false⟩ h ht
        with h1 | h1
      · exact absurd h1 (by simp)
      · exact hin h1
    have f3 : memcmp_eq0 ((row V R).args.getD 0 none) (buf ((row V R).args.getD 1 none))
        ((row V R).lengths.getD 1 0) = true →
        (row V R).lengths.getD 0 0 = (row V R).lengths.getD 1 0 → False := by
      intro hm hl
      simp only [row, argLength, memcmp_eq0, List.getD_cons_succ, List.getD_cons_zero,
        beq_iff_eq, List.take_length] at hm hl
      rw [← hl, List.take_length] at hm
      exact hne hm
    have hg : insertValueGuard (row V R)
        (referenceLoop (row V R) data data.referenceCount 0 ⟨false, false⟩).referencesHaveValue
        (valueLoop (row V R) data.valueCount 0 ⟨data, false, false⟩).valuesHaveValue
        = true := by
      unfold insertValueGuard
      rw [f1, f2]
      simp only [Bool.not_false, Bool.true_and, Bool.not_eq_true', Bool.and_eq_false_iff]
      by_cases hl : (row V R).lengths.getD 0 0 = (row V R).lengths.getD 1 0
      · right
        rw [← Bool.not_eq_true]
        intro hm
        exact f3 hm hl
      · left; left; left
        simpa using hl
    rw [if_pos hg]
    exact List.mem_append.2 (Or.inr (List.mem_singleton.2 rfl))

/-! ## Runs of rows -/

theorem wellFormed_of_empty (data : not_in_data) (h : EmptyState data) :
    RefsWF data ∧ ValsWF data := by
  obtain ⟨h1, h2⟩ := h
  refine ⟨⟨?_, ?_, ?_⟩, ⟨?_, ?_, ?_⟩⟩
  · omega
  · omega
  · intro i hi; omega
  · omega
  · omega
  · intro i hi; omega

theorem run_cons (data : not_in_data) (x : Option Bytes × Option Bytes)
    (rows : List (Option Bytes × Option Bytes)) :
    run data (x :: rows) = run (addRow data x) rows := rfl

/-- Every state reached by adds from a well-formed state is well formed: the
loops of `not_in_add` read live, allocated slots only. -/
theorem run_wellFormed (rows : List (Option Bytes × Option Bytes)) :
    ∀ data : not_in_data, RefsWF data → ValsWF data →
      RefsWF (run data rows) ∧ ValsWF (run data rows) := by
  induction rows with
  | nil => intro data h1 h2; exact ⟨h1, h2⟩
  | cons x rest ih =>
    intro data h1 h2
    obtain ⟨V, R⟩ := x
    rw [run_cons]
    exact ih _ (addRow_references data V R h1).2 (addRow_values data V R h2).2

/-- A run stores in `values` nothing but what was stored and the bytes of its
value arguments. -/
theorem run_values_subset (v : Bytes) (rows : List (Option Bytes × Option Bytes)) :
    ∀ data : not_in_data, ValsWF data → v ∈ storedValues (run data rows) →
      v ∈ storedValues data ∨ ∃ x ∈ rows, v = buf x.1 := by
  induction rows with
  | nil => intro data _ hv; exact Or.inl hv
  | cons x rest ih =>
    intro data h hv
    obtain ⟨V, R⟩ := x
    rw [run_cons] at hv
    rcases ih _ (addRow_values data V R h).2 hv with h1 | ⟨y, hy, hyv⟩
    · rcases addRow_values_subset data V R h v h1 with h2 | h2
      · exact Or.inl h2
      · exact Or.inr ⟨(V, R), List.mem_cons_self _ _, h2⟩
    · exact Or.inr ⟨y, List.mem_cons_of_mem _ hy, hyv⟩

/-- A run removes from `values` nothing but the bytes of its reference
arguments. -/
theorem run_values_keep (v : Bytes) (rows : List (Option Bytes × Option Bytes)) :
    ∀ data : not_in_data, ValsWF data → v ∈ storedValues data →
      (∀ x ∈ rows, v ≠ buf x.2) → v ∈ storedValues (run data rows) := by
  induction rows with
  | nil => intro data _ hv _; exact hv
  | cons x rest ih =>
    intro data h hv hne
    obtain ⟨V, R⟩ := x
    rw [run_cons]
    exact ih _ (addRow_values data V R h).2
      (addRow_values_keep data V R h v hv (hne (V, R) (List.mem_cons_self _ _)))
      (fun y hy => hne y (List.mem_cons_of_mem _ hy))

/-- A run keeps or stores the bytes of every value argument that are not a
stored reference and differ from the bytes of every reference argument. -/
theorem run_values_gain (v : Bytes) (rows : List (Option Bytes × Option Bytes)) :
    ∀ data : not_in_data, RefsWF data → ValsWF data → v ∉ storedReferences data →
      (∀ x ∈ rows, v ≠ buf x.2) →
      (v ∈ storedValues data ∨ ∃ x ∈ rows, buf x.1 = v) →
      v ∈ storedValues (run data rows) := by
  induction rows with
  | nil =>
    intro data _ _ _ _ hv
    rcases hv with hv | ⟨x, hx, _⟩
    · exact hv
    · exact absurd hx (List.not_mem_nil _)
  | cons x rest ih =>
    intro data hr h hnr hne hv
    obtain ⟨V, R⟩ := x
    rw [run_cons]
    have hneR : v ≠ buf R := hne (V, R) (List.mem_cons_self _ _)
    obtain ⟨hs, hr1⟩ := addRow_references data V R hr
    have hnr1 : v ∉ storedReferences (addRow data (V, R)) := by
      rw [hs]
      split
      · intro hm
        rcases List.mem_append.1 hm with h1 | h1
        · exact hnr h1
        · exact hneR (List.mem_singleton.1 h1)
      · exact hnr
    apply ih _ hr1 (addRow_values data V R h).2 hnr1
      (fun y hy => hne y (List.mem_cons_of_mem _ hy))
    rcases hv with hv | ⟨y, hy, hyv⟩
    · exact Or.inl (addRow_values_keep data V R h v hv hneR)
    · rcases List.mem_cons.1 hy with e | e
      · subst e
        left
        have e1 : buf V = v := hyv
        subst e1
        exact addRow_values_gain data V R h hr hnr hneR
      · exact Or.inr ⟨y, e, hyv⟩

/-! ## One row on a duplicate-free state -/

/-- For a row of two non-null arguments the insertion guard holds exactly when
both flags are down and the two arguments differ. -/
theorem insertValueGuard_row (v r : Bytes) (a b : Bool) :
    insertValueGuard (row (some v) (some r)) a b = true ↔ a = false ∧ b = false ∧ v ≠ r := by
  have key : (v.length = r.length ∧ v.take r.length = r) ↔ v = r := by
    constructor
    · rintro ⟨h1, h2⟩
      rw [← h1, List.take_length] at h2
      exact h2
    · intro h
      subst h
      exact ⟨rfl, List.take_length _⟩
  cases a <;> cases b <;>
    simp [insertValueGuard, row, argLength, buf, memcmp_eq0]
  rw [← not_and_or, key]

/-- On a duplicate-free value array, the value loop for a row of non-null
arguments leaves the stored values other than the reference argument, without
duplicates; and, unless the reference argument is stored before the last slot
while the value argument is stored in the last slot, it raises `valuesHaveValue`
exactly when the value argument is stored. -/
theorem valueLoop_nodup (data : not_in_data) (V : Option Bytes) (r : Bytes)
    (hv : ValsWF data) (hnd : (storedValues data).Nodup) :
    (∀ x, x ∈ storedValues (valueLoop (row V (some r)) data.valueCount 0
        ⟨data, false, false⟩).data ↔ x ∈ storedValues data ∧ x ≠ r) ∧
    (storedValues (valueLoop (row V (some r)) data.valueCount 0
        ⟨data, false, false⟩).data).Nodup ∧
    ((¬ ∃ j, j + 1 < data.valueCount ∧ storedValue data j = r ∧
        storedValue data (data.valueCount - 1) = buf V) →
      ((valueLoop (row V (some r)) data.valueCount 0
        ⟨data, false, false⟩).valuesHaveValue = true ↔ buf V ∈ storedValues data)) := by
  have hbuf : buf (some r) = r := rfl
  by_cases hin : r ∈ storedValues data
  · obtain ⟨j, hj, hjr⟩ := (mem_storedValues _ _).1 hin
    have hinj := (nodup_storedValues_iff data).1 hnd
    have huniq : ∀ k, k < data.valueCount → k ≠ j → storedValue data k ≠ buf (some r) := by
      intro k hk hkj e
      exact hkj (hinj k j hk hj (e.trans hjr.symm))
    obtain ⟨p1, p2⟩ := valueLoop_present V (some r) data j hv hj hjr huniq
    refine ⟨?_, ?_, ?_⟩
    · intro x
      rw [p1, mem_storedValues_removeValue data j hv hj hnd x, hjr]
    · rw [p1]; exact removeValue_nodup data j hv hj hnd
    · intro hside
      rw [p2, mem_storedValues]
      constructor
      · rintro ⟨k, hk, _, hkv⟩; exact ⟨k, hk, hkv⟩
      · rintro ⟨k, hk, hkv⟩
        refine ⟨k, hk, ?_, hkv⟩
        by_contra hc
        have h1 : ¬ k < data.valueCount - 1 := fun h => hc (Or.inl h)
        have h2 : k ≠ j := fun h => hc (Or.inr h)
        have hk1 : k = data.valueCount - 1 := by omega
        apply hside
        refine ⟨j, by omega, hjr, ?_⟩
        rw [← hk1]; exact hkv
  · obtain ⟨p1, p2⟩ := valueLoop_absent V (some r) data hv hin
    refine ⟨?_, ?_, ?_⟩
    · intro x
      rw [p1]
      constructor
      · intro hx
        exact ⟨hx, fun e => hin (e ▸ hx)⟩
      · intro hx; exact hx.1
    · rw [p1]; exact hnd
    · intro _; exact p2

/-! ## Only the stored strings matter

Two well-formed states that store the same strings in the same slots are taken
by the same rows to states that again store the same strings: unwritten and
stale slots beyond the counters are never read. -/

theorem storedValues_eq_iff (d1 d2 : not_in_data) :
    storedValues d1 = storedValues d2 ↔
      d1.valueCount = d2.valueCount ∧
      ∀ j, j < d1.valueCount → storedValue d1 j = storedValue d2 j := by
  unfold storedValues
  constructor
  · intro h
    have hlen : d1.valueCount = d2.valueCount := by
      have := congrArg List.length h
      simpa using this
    refine ⟨hlen, ?_⟩
    rw [← hlen] at h
    intro j hj
    exact (List.map_inj_left.1 h) j (List.mem_range.2 hj)
  · rintro ⟨h1, h2⟩
    rw [← h1]
    exact List.map_congr_left (fun j hj => h2 j (List.mem_range.1 hj))

theorem valueLoopBody_sim (V R : Option Bytes) (i : Nat) (p1 p2 : ValueProbe)
    (w1 : ValsWF p1.data) (w2 : ValsWF p2.data) (hi : i < p1.data.valueCount)
    (hs : storedValues p1.data = storedValues p2.data)
    (hf : p1.valuesHaveValue = p2.valuesHaveValue) :
    storedValues (valueLoopBody (row V R) i p1).data =
        storedValues (valueLoopBody (row V R) i p2).data ∧
      (valueLoopBody (row V R) i p1).valuesHaveValue =
        (valueLoopBody (row V R) i p2).valuesHaveValue := by
  obtain ⟨hc, hj⟩ := (storedValues_eq_iff _ _).1 hs
  have hi2 : i < p2.data.valueCount := by omega
  have m0 : slotMatches (row V R) 0 p1.data.valueLengths p1.data.values i =
      slotMatches (row V R) 0 p2.data.valueLengths p2.data.values i := by
    rw [Bool.eq_iff_iff, slotMatches_row_zero V R _ _ i (w1.2.2 i hi),
      slotMatches_row_zero V R _ _ i (w2.2.2 i hi2)]
    have := hj i hi
    unfold storedValue at this
    rw [this]
  have m1 : slotMatches (row V R) 1 p1.data.valueLengths p1.data.values i =
      slotMatches (row V R) 1 p2.data.valueLengths p2.data.values i := by
    rw [Bool.eq_iff_iff, slotMatches_row_one V R _ _ i (w1.2.2 i hi),
      slotMatches_row_one V R _ _ i (w2.2.2 i hi2)]
    have := hj i hi
    unfold storedValue at this
    rw [this]
  refine ⟨?_, ?_⟩
  · rw [valueLoopBody_data, valueLoopBody_data, m1]
    split
    · rw [storedValues_eq_iff]
      refine ⟨?_, ?_⟩
      · show p1.data.valueCount - 1 = p2.data.valueCount - 1
        rw [hc]
      · intro j hjlt
        have hjlt : j < p1.data.valueCount - 1 := hjlt
        rw [(removal_storedValue p1.data i w1 hi).2 j,
          (removal_storedValue p2.data i w2 hi2).2 j, ← hc,
          hj (p1.data.valueCount - 1) (by omega), hj j (by omega)]
    · exact hs
  · rw [valueLoopBody_haveValue, valueLoopBody_haveValue, m0, hf]

theorem valueLoop_sim (V R : Option Bytes) :
    ∀ (fuel i : Nat) (p1 p2 : ValueProbe), ValsWF p1.data → ValsWF p2.data →
      storedValues p1.data = storedValues p2.data →
      p1.valuesHaveValue = p2.valuesHaveValue →
      p1.valuesHaveReference = p2.valuesHaveReference →
      storedValues (valueLoop (row V R) fuel i p1).data =
          storedValues (valueLoop (row V R) fuel i p2).data ∧
        (valueLoop (row V R) fuel i p1).valuesHaveValue =
          (valueLoop (row V R) fuel i p2).valuesHaveValue := by
  intro fuel
  induction fuel with
  | zero => intro i p1 p2 _ _ hs hf _; exact ⟨hs, hf⟩
  | succ fuel ih =>
    intro i p1 p2 w1 w2 hs hf hg
    obtain ⟨hc, _⟩ := (storedValues_eq_iff _ _).1 hs
    unfold valueLoop
    rw [← hc, ← hf, ← hg]
    split
    · rename_i hcond
      have hi : i < p1.data.valueCount := by
        simp only [Bool.and_eq_true, decide_eq_true_eq] at hcond; exact hcond.1
      obtain ⟨b1, b2⟩ := valueLoopBody_sim V R i p1 p2 w1 w2 hi hs hf
      exact ih (i + 1) _ _ (valueLoopBody_ValsWF _ i p1 w1 hi)
        (valueLoopBody_ValsWF _ i p2 w2 (by omega)) b1 b2
        (by rw [valueLoopBody_haveReference, valueLoopBody_haveReference, hg])
    · exact ⟨hs, hf⟩

/-- One row takes two well-formed states storing the same strings to states
storing the same strings. -/
theorem addRow_sim (d1 d2 : not_in_data) (x : Option Bytes × Option Bytes)
    (r1 : RefsWF d1) (r2 : RefsWF d2) (w1 : ValsWF d1) (w2 : ValsWF d2)
    (hr : storedReferences d1 = storedReferences d2)
    (hv : storedValues d1 = storedValues d2) :
    storedReferences (addRow d1 x) = storedReferences (addRow d2 x) ∧
    storedValues (addRow d1 x) = storedValues (addRow d2 x) := by
  obtain ⟨V, R⟩ := x
  constructor
  · rw [(addRow_references d1 V R r1).1, (addRow_references d2 V R r2).1, hr]
  · obtain ⟨hc, _⟩ := (storedValues_eq_iff _ _).1 hv
    obtain ⟨l1, l2⟩ := valueLoop_sim V R d1.valueCount 0 ⟨d1, false, false⟩
      ⟨d2, false, false⟩ w1 w2 hv rfl rfl
    have hflag : (referenceLoop (row V R) d1 d1.referenceCount 0
        ⟨false, false⟩).referencesHaveValue =
        (referenceLoop (row V R) d2 d2.referenceCount 0 ⟨false, false⟩).referencesHaveValue := by
      rw [Bool.eq_iff_iff, referencesHaveValue_iff d1 V R r1,
        referencesHaveValue_iff d2 V R r2, hr]
    rw [(addRow_values d1 V R w1).1, (addRow_values d2 V R w2).1, hflag, ← hc, l1, l2]

/-- A run takes two well-formed states storing the same strings to states
storing the same strings. -/
theorem run_sim (rows : List (Option Bytes × Option Bytes)) :
    ∀ d1 d2 : not_in_data, RefsWF d1 → RefsWF d2 → ValsWF d1 → ValsWF d2 →
      storedReferences d1 = storedReferences d2 → storedValues d1 = storedValues d2 →
      storedReferences (run d1 rows) = storedReferences (run d2 rows) ∧
      storedValues (run d1 rows) = storedValues (run d2 rows) := by
  induction rows with
  | nil => intro d1 d2 _ _ _ _ hr hv; exact ⟨hr, hv⟩
  | cons x rest ih =>
    intro d1 d2 r1 r2 w1 w2 hr hv
    obtain ⟨a1, a2⟩ := addRow_sim d1 d2 x r1 r2 w1 w2 hr hv
    rw [run_cons, run_cons]
    exact ih _ _ (addRow_references d1 x.1 x.2 r1).2 (addRow_references d2 x.1 x.2 r2).2
      (addRow_values d1 x.1 x.2 w1).2 (addRow_values d2 x.1 x.2 w2).2 a1 a2

/-- From every empty state a run stores what it stores from the state attached
by a successful init. -/
theorem run_of_empty (data : not_in_data) (h : EmptyState data)
    (rows : List (Option Bytes × Option Bytes)) :
    storedReferences (run data rows) = storedReferences (run initState rows) ∧
    storedValues (run data rows) = storedValues (run initState rows) := by
  obtain ⟨r1, w1⟩ := wellFormed_of_empty data h
  obtain ⟨r2, w2⟩ := wellFormed_of_empty initState ⟨rfl, rfl⟩
  apply run_sim rows data initState r1 r2 w1 w2
  · simp [storedReferences, h.1, initState]
  · simp [storedValues, h.2, initState]

/-- The final sets of a group in every order of its rows, from every empty
state, once they have been computed for each order from the state of a fresh
init. -/
theorem sets_of_perm (rows : List (Option Bytes × Option Bytes)) (vs rs : List Bytes)
    (hall : ∀ p ∈ rows.permutations',
      (storedValues (run initState p) ⊆ vs ∧ vs ⊆ storedValues (run initState p)) ∧
      (storedReferences (run initState p) ⊆ rs ∧ rs ⊆ storedReferences (run initState p)))
    (data : not_in_data) (h : EmptyState data)
    (p : List (Option Bytes × Option Bytes)) (hp : p.Perm rows) :
    (∀ v, v ∈ storedValues (run data p) ↔ v ∈ vs) ∧
    (∀ r, r ∈ storedReferences (run data p) ↔ r ∈ rs) := by
  obtain ⟨⟨a1, a2⟩, ⟨b1, b2⟩⟩ := hall p (List.mem_permutations'.2 hp)
  obtain ⟨e1, e2⟩ := run_of_empty data h p
  rw [e1, e2]
  exact ⟨fun v => ⟨fun hv => a1 hv, fun hv => a2 hv⟩,
    fun r => ⟨fun hr => b1 hr, fun hr => b2 hr⟩⟩

/-! ## The claims -/

/-- C1 (disjointness of `values` and `references`) does not hold of the code.
Applied to the state of a fresh init, the rows `("x","p"), ("y","q"), ("y","x"),
("z","y")` leave `"y"` stored in `values` and in `references`: the third row
stores `"y"` twice (the slot swapped in by the removal of `"x"` is not compared
with the value argument) and the fourth removes only one of the two. The single
row `(NULL, "")` stores the empty string on both sides. -/
theorem disjointness_broken :
    (sy ∈ storedValues (run initState rowsLeak) ∧
      sy ∈ storedReferences (run initState rowsLeak)) ∧
    ([] ∈ storedValues (run initState [(none, some [])]) ∧
      [] ∈ storedReferences (run initState [(none, some [])])) := by
  decide

/-- C2 (no duplicates in `values`) does not hold of the code. Applied to the
state of a fresh init, the rows `("x","p"), ("y","q"), ("y","x")` leave `"y"`
stored twice in `values`. -/
theorem values_duplicate :
    storedValues (run initState rowsDup) = [sy, sy] ∧
    ¬ (storedValues (run initState rowsDup)).Nodup := by
  decide

/-- C3 (value eligibility) does not hold of the code. After the rows
`("x","p"), ("y","q"), ("y","x"), ("z","y")` the string `"y"` is still stored in
`values` although the last row has it as reference (part b); after the single
row `(NULL, "b")` the empty string is stored in `values` although no row has a
non-null value (part a). -/
theorem value_eligibility_broken :
    (sy ∈ storedValues (run initState rowsLeak) ∧ (some sz, some sy) ∈ rowsLeak) ∧
    (storedValues (run initState [(none, some sb)]) = [[]] ∧
      ∀ x ∈ [((none : Option Bytes), some sb)], x.1 = none) := by
  decide

/-- C4 (maximality) does not hold of the code. After the rows `("","a"),
("b",NULL)` the empty string, a non-null value equal to no non-null reference,
is not stored in `values`: the null reference of the second row, compared with
length `0`, removes it. -/
theorem maximality_broken :
    storedValues (run initState [(some [], some sa)]) = [[]] ∧
    storedValues (run initState rowsEmptyString) = [sb] ∧
    [] ∉ storedValues (run initState rowsEmptyString) ∧
    ∀ x ∈ rowsEmptyString, x.2 ≠ some [] := by
  decide

/-- C5 (order invariance) does not hold of the code. The rows `("x","p"),
("y","q"), ("y","x"), ("z","y")` leave `"y"` and `"z"` in `values`; the same rows
with the last one first leave only `"z"`. -/
theorem order_matters :
    rowsLeak.Perm rowsLeakRotated ∧
    storedValues (run initState rowsLeak) = [sy, sz] ∧
    storedValues (run initState rowsLeakRotated) = [sz] ∧
    ¬ (∀ v, v ∈ storedValues (run initState rowsLeak) ↔
        v ∈ storedValues (run initState rowsLeakRotated)) := by
  refine ⟨List.perm_append_comm, by decide, by decide, ?_⟩
  intro h
  exact absurd ((h sy).1 (by decide)) (by decide)

/-- C6 (reference closure): from an empty state, with every allocation
succeeding, the stored references after a sequence of rows are exactly the
non-null reference arguments of the rows, each of them stored once; and after
every add (after every initial segment of the rows) the stored references are
pairwise distinct. -/
theorem reference_closure (data : not_in_data) (rows : List (Option Bytes × Option Bytes))
    (h : EmptyState data) :
    (∀ r, r ∈ storedReferences (run data rows) ↔ ∃ x ∈ rows, x.2 = some r) ∧
    (∀ x ∈ rows, ∀ r, x.2 = some r →
      ∃! i, i < (run data rows).referenceCount ∧ storedReference (run data rows) i = r) ∧
    (∀ n, (storedReferences (run data (rows.take n))).Nodup) := by
  obtain ⟨he, hwf⟩ := storedReferences_of_empty data h
  have hnd : (storedReferences data).Nodup := by rw [he]; exact List.nodup_nil
  obtain ⟨_, a2, a3⟩ := run_references rows data hwf hnd
  have hmem : ∀ r, r ∈ storedReferences (run data rows) ↔ ∃ x ∈ rows, x.2 = some r := by
    intro r
    rw [a3 r, he]
    simp
  refine ⟨hmem, ?_, ?_⟩
  · intro x hx r hr
    have hin := (hmem r).2 ⟨x, hx, hr⟩
    unfold storedReferences at hin a2
    obtain ⟨i, hi, hir⟩ := List.mem_map.1 hin
    refine ⟨i, ⟨List.mem_range.1 hi, hir⟩, ?_⟩
    rintro j ⟨hj, hjr⟩
    exact List.inj_on_of_nodup_map a2 (List.mem_range.2 hj) hi (hjr.trans hir.symm)
  · intro n
    exact (run_references (rows.take n) data hwf hnd).2.1

/-- Witness of C6 at the state of a fresh init and the rows `("x","p"),
("y","q"), ("y","x"), ("z","y")`. -/
theorem reference_closure_witness :
    EmptyState initState ∧
    ((∀ r, r ∈ storedReferences (run initState rowsLeak) ↔ ∃ x ∈ rowsLeak, x.2 = some r) ∧
      (∀ x ∈ rowsLeak, ∀ r, x.2 = some r →
        ∃! i, i < (run initState rowsLeak).referenceCount ∧
          storedReference (run initState rowsLeak) i = r) ∧
      (∀ n, (storedReferences (run initState (rowsLeak.take n))).Nodup)) :=
  ⟨by decide, reference_closure initState rowsLeak (by decide)⟩

/-- C7 (insert-value rule) does not hold of the code. On the state of a fresh
init the row `(NULL, "b")` appends a zero-length entry to `values` although the
value argument is null; on the state reached by `("x","p"), ("y","q")` the row
`("y","x")` appends `"y"` although `"y"` is already stored in `values`. -/
theorem insert_value_rule_broken :
    ((addRow initState (none, some sb)).valueCount = initState.valueCount + 1 ∧
      storedValues (addRow initState (none, some sb)) = storedValues initState ++ [[]]) ∧
    (sy ∈ storedValues (run initState [(some sx, some sp), (some sy, some sq)]) ∧
      storedValues (addRow (run initState [(some sx, some sp), (some sy, some sq)])
        (some sy, some sx)) = [sy] ++ [sy]) := by
  decide

/-- C8 (insert-reference rule): on a state whose reference array is well formed,
one add with every allocation succeeding appends the reference argument to the
stored references when it is non-null and not yet stored, and leaves the stored
references as they were otherwise; in both cases the references stored before
the call are still there, in their slots. -/
theorem insert_reference_rule (data : not_in_data) (V R : Option Bytes) (h : RefsWF data) :
    (∀ r, R = some r → r ∉ storedReferences data →
      storedReferences (addRow data (V, R)) = storedReferences data ++ [r]) ∧
    ((R = none ∨ ∃ r, R = some r ∧ r ∈ storedReferences data) →
      storedReferences (addRow data (V, R)) = storedReferences data) ∧
    storedReferences data <+: storedReferences (addRow data (V, R)) := by
  obtain ⟨hs, _⟩ := addRow_references data V R h
  refine ⟨?_, ?_, ?_⟩
  · intro r hr hn
    subst hr
    rw [hs, if_pos ⟨rfl, hn⟩]
    rfl
  · intro hc
    rw [hs, if_neg]
    rintro ⟨h1, h2⟩
    rcases hc with hc | ⟨r, hr, hm⟩
    · subst hc; exact absurd h1 (by decide)
    · subst hr; exact h2 hm
  · rw [hs]
    split
    · exact ⟨[buf R], rfl⟩
    · exact ⟨[], List.append_nil _⟩

/-- Witness of C8 at the state reached by `("x","p"), ("y","q"), ("y","x")` and
the row `("z","y")`. -/
theorem insert_reference_rule_witness :
    RefsWF (run initState rowsDup) ∧
    ((∀ r, some sy = some r → r ∉ storedReferences (run initState rowsDup) →
        storedReferences (addRow (run initState rowsDup) (some sz, some sy)) =
          storedReferences (run initState rowsDup) ++ [r]) ∧
      ((some sy = none ∨ ∃ r, some sy = some r ∧ r ∈ storedReferences (run initState rowsDup)) →
        storedReferences (addRow (run initState rowsDup) (some sz, some sy)) =
          storedReferences (run initState rowsDup)) ∧
      storedReferences (run initState rowsDup) <+:
        storedReferences (addRow (run initState rowsDup) (some sz, some sy))) :=
  ⟨by decide, insert_reference_rule (run initState rowsDup) (some sz) (some sy) (by decide)⟩

/-- C9 (self-match net effect) does not hold of the code. On the state reached
by `("x","p"), ("y","q"), ("y","x")`, which stores `"y"` twice in `values`, the
row `("y","y")` removes one copy only: `"y"` is then stored in `references` and
still stored in `values`. -/
theorem self_match_leaves_value :
    sy ∈ storedReferences (addRow (run initState rowsDup) (some sy, some sy)) ∧
    sy ∈ storedValues (addRow (run initState rowsDup) (some sy, some sy)) := by
  decide

/-- C10 (null value) does not hold of the code. On the state of a fresh init,
which stores nothing, the row `(NULL, NULL)` stores a zero-length entry in
`values`, and so does the row `(NULL, "b")`. -/
theorem null_value_inserted :
    storedValues initState = [] ∧
    storedValues (addRow initState (none, none)) = [[]] ∧
    storedValues (addRow initState (none, some sb)) = [[]] := by
  decide

/-- C11 (null reference) does not hold of the code. On the state reached by the
row `("","a")`, which stores the empty string in `values`, the row `("b",NULL)`
leaves `references` as they were but removes the empty string from `values`; so
does the row `(NULL,NULL)`. -/
theorem null_reference_removes :
    [] ∈ storedValues (run initState [(some [], some sa)]) ∧
    [] ∉ storedValues (addRow (run initState [(some [], some sa)]) (some sb, none)) ∧
    storedReferences (addRow (run initState [(some [], some sa)]) (some sb, none)) =
      storedReferences (run initState [(some [], some sa)]) ∧
    storedValues (addRow (run initState [(some [], some sa)]) (none, none)) = [] := by
  decide

/-- C14 (clear): after `not_in_clear` both counters are zero, nothing is stored in
either set, exactly as in the state attached by a successful init, the
invariants of the group state hold, and a second clear changes nothing. -/
theorem not_in_clear_empties (data : not_in_data) :
    ((not_in_clear data).referenceCount = 0 ∧ (not_in_clear data).valueCount = 0) ∧
    (storedReferences (not_in_clear data) = storedReferences initState ∧
      storedValues (not_in_clear data) = storedValues initState ∧
      storedReferences (not_in_clear data) = [] ∧ storedValues (not_in_clear data) = []) ∧
    (RefsWF (not_in_clear data) ∧ ValsWF (not_in_clear data) ∧
      (storedReferences (not_in_clear data)).Nodup ∧
      (storedValues (not_in_clear data)).Nodup ∧
      ∀ r ∈ storedReferences (not_in_clear data), r ∉ storedValues (not_in_clear data)) ∧
    not_in_clear (not_in_clear data) = not_in_clear data := by
  have hr : storedReferences (not_in_clear data) = [] := rfl
  have hv : storedValues (not_in_clear data) = [] := rfl
  obtain ⟨w1, w2⟩ := wellFormed_of_empty (not_in_clear data) ⟨rfl, rfl⟩
  refine ⟨⟨rfl, rfl⟩, ⟨hr, hv, hr, hv⟩, ⟨w1, w2, ?_, ?_, ?_⟩, rfl⟩
  · rw [hr]; exact List.nodup_nil
  · rw [hv]; exact List.nodup_nil
  · intro r h; rw [hr] at h; exact absurd h (List.not_mem_nil _)

/-- C15 (a failed insert leaves the set unchanged) does not hold of the code. On
the state reached by the row `("a","b")` and with the row `("d","e")`, when the
growth of the `values` array fails the call returns with `valueCount` raised
from 1 to 2 and the array pointer null; when the growth of `valueLengths` fails
it returns with `valueCount` 2, a second, unwritten slot in `values` and the
lengths pointer null; when the growth of `references` fails it returns with
`referenceCount` raised from 1 to 2 and the array pointer null. Only the failure
of the copy itself leaves the state as it was. -/
theorem failed_growth_corrupts :
    ((valueLoop (row (some sd) (some se)) 1 0
        ⟨run initState scenario1, false, false⟩).data = run initState scenario1 ∧
      (run initState scenario1).valueCount = 1 ∧
      (run initState scenario1).referenceCount = 1) ∧
    ((not_in_add valuesGrowthFails (run initState scenario1)
        (row (some sd) (some se))).1.valueCount = 2 ∧
      (not_in_add valuesGrowthFails (run initState scenario1)
        (row (some sd) (some se))).1.values = [] ∧
      (not_in_add valuesGrowthFails (run initState scenario1)
        (row (some sd) (some se))).2 = some "Couldn't reallocate memory") ∧
    ((not_in_add valueLengthsGrowthFails (run initState scenario1)
        (row (some sd) (some se))).1.valueCount = 2 ∧
      (not_in_add valueLengthsGrowthFails (run initState scenario1)
        (row (some sd) (some se))).1.values = [sa, []] ∧
      (not_in_add valueLengthsGrowthFails (run initState scenario1)
        (row (some sd) (some se))).1.valueLengths = []) ∧
    ((not_in_add referencesGrowthFails (run initState scenario1)
        (row (some sd) (some se))).1.referenceCount = 2 ∧
      (not_in_add referencesGrowthFails (run initState scenario1)
        (row (some sd) (some se))).1.references = []) ∧
    (not_in_add valueCopyFails (run initState scenario1) (row (some sd) (some se))).1 =
      run initState scenario1 := by
  decide

/-- C16 (init arity check): with every allocation succeeding, `not_in_init`
returns 1 exactly when the argument count is not 2; in that case it writes the
arity message, which fits in 80 bytes with its terminator, and leaves the
descriptor (and so its state pointer) and the argument descriptor as the host
passed them; otherwise it returns 0 and attaches a state with both counters
zero. -/
theorem not_in_init_arity (initid : UDF_INIT) (args : UDF_ARGS) :
    ((not_in_init initAllocOk initid args).ret = 1 ↔ args.arg_count ≠ 2) ∧
    (args.arg_count ≠ 2 →
      (not_in_init initAllocOk initid args).message =
        some "wrong number of arguments: NOT_IN() requires two arguments" ∧
      (not_in_init initAllocOk initid args).initid = initid ∧
      (not_in_init initAllocOk initid args).args = args) ∧
    "wrong number of arguments: NOT_IN() requires two arguments".utf8ByteSize + 1 ≤ 80 ∧
    (args.arg_count = 2 →
      (not_in_init initAllocOk initid args).ret = 0 ∧
      (not_in_init initAllocOk initid args).message = none ∧
      ∃ data, (not_in_init initAllocOk initid args).initid.ptr = some data ∧
        data.referenceCount = 0 ∧ data.valueCount = 0) := by
  refine ⟨?_, ?_, by decide, ?_⟩
  · by_cases h : args.arg_count = 2
    · simp [not_in_init, initAllocOk, h]
    · simp [not_in_init, h]
  · intro h
    simp [not_in_init, h]
  · intro h
    simp [not_in_init, initAllocOk, h]

/-- C17 (init result shape) does not hold of the code. For `NOT_IN(name, ref)`
with `lengths = [10, 10]` and `attribute_lengths = [4, 3]` a successful
`not_in_init` sets `maybe_null` to 1 and `max_length` to 4, the entry of
`attribute_lengths` for argument 0, not to 10, its entry of `lengths`. -/
theorem max_length_from_attribute_lengths :
    (not_in_init initAllocOk hostInitid hostArgs).ret = 0 ∧
    (not_in_init initAllocOk hostInitid hostArgs).initid.maybe_null = 1 ∧
    (not_in_init initAllocOk hostInitid hostArgs).initid.max_length = 4 ∧
    hostArgs.attribute_lengths.getD 0 0 = 4 ∧
    hostArgs.lengths.getD 0 0 = 10 ∧
    (not_in_init initAllocOk hostInitid hostArgs).initid.max_length ≠
      hostArgs.lengths.getD 0 0 := by
  decide

/-- C18 (finalize is read-only): `not_in` returns the `result` pointer it was
given, leaves `*length`, `*is_null` and `*error` as the host set them, and leaves
the descriptor unchanged, so the attached group state keeps both counters and
both arrays. -/
theorem not_in_read_only (initid : UDF_INIT) (args : UDF_ARGS) (result : Option Bytes)
    (length is_null error : Nat) :
    (not_in initid args result length is_null error).ret = result ∧
    (not_in initid args result length is_null error).length = length ∧
    (not_in initid args result length is_null error).is_null = is_null ∧
    (not_in initid args result length is_null error).error = error ∧
    (not_in initid args result length is_null error).initid = initid ∧
    (not_in initid args result length is_null error).initid.ptr = initid.ptr :=
  ⟨rfl, rfl, rfl, rfl, rfl, rfl⟩

/-- C19 (one-step preservation): on a well-formed state whose stored values are
pairwise distinct, whose stored references are pairwise distinct and which
stores no string on both sides, and for a row of non-null arguments `(v, r)`,
unless `r` is stored in `values` before the last slot while `v` is stored in the
last slot, one add with every allocation succeeding leaves the stored values
pairwise distinct, the stored references pairwise distinct and the two sides
disjoint, and the stored values are the former ones other than `r`, together
with `v` exactly when `v` was stored on neither side and differs from `r`. -/
theorem add_preserves_invariants (data : not_in_data) (v r : Bytes)
    (hr : RefsWF data) (hv : ValsWF data)
    (hndv : (storedValues data).Nodup) (hndr : (storedReferences data).Nodup)
    (hdisj : ∀ x ∈ storedReferences data, x ∉ storedValues data)
    (hside : ¬ ∃ j, j + 1 < data.valueCount ∧ storedValue data j = r ∧
      storedValue data (data.valueCount - 1) = v) :
    (storedValues (addRow data (some v, some r))).Nodup ∧
    (storedReferences (addRow data (some v, some r))).Nodup ∧
    (∀ x ∈ storedReferences (addRow data (some v, some r)),
      x ∉ storedValues (addRow data (some v, some r))) ∧
    (∀ x, x ∈ storedValues (addRow data (some v, some r)) ↔
      (x ∈ storedValues data ∧ x ≠ r) ∨
      (x = v ∧ v ∉ storedValues data ∧ v ∉ storedReferences data ∧ v ≠ r)) := by
  obtain ⟨l1, l2, l3⟩ := valueLoop_nodup data (some v) r hv hndv
  have l3 := l3 hside
  have hbv : buf (some v) = v := rfl
  have hbr : buf (some r) = r := rfl
  rw [hbv] at l3
  have hrv := referencesHaveValue_iff data (some v) (some r) hr
  rw [hbv] at hrv
  obtain ⟨sv, _⟩ := addRow_values data (some v) (some r) hv
  obtain ⟨sr, _⟩ := addRow_references data (some v) (some r) hr
  rw [hbv] at sv
  rw [hbr] at sr
  have hguard : insertValueGuard (row (some v) (some r))
      (referenceLoop (row (some v) (some r)) data data.referenceCount 0
        ⟨false, false⟩).referencesHaveValue
      (valueLoop (row (some v) (some r)) data.valueCount 0
        ⟨data, false, false⟩).valuesHaveValue = true ↔
      v ∉ storedReferences data ∧ v ∉ storedValues data ∧ v ≠ r := by
    rw [insertValueGuard_row, ← Bool.not_eq_true, ← Bool.not_eq_true, hrv, l3]
  have hmemr : ∀ x, x ∈ storedReferences (addRow data (some v, some r)) →
      x ∈ storedReferences data ∨ x = r := by
    intro x hx
    rw [sr] at hx
    split at hx
    · rcases List.mem_append.1 hx with h | h
      · exact Or.inl h
      · exact Or.inr (List.mem_singleton.1 h)
    · exact Or.inl hx
  have hchar : ∀ x, x ∈ storedValues (addRow data (some v, some r)) ↔
      (x ∈ storedValues data ∧ x ≠ r) ∨
      (x = v ∧ v ∉ storedValues data ∧ v ∉ storedReferences data ∧ v ≠ r) := by
    intro x
    rw [sv]
    split
    · rename_i hg
      obtain ⟨g1, g2, g3⟩ := hguard.1 hg
      rw [List.mem_append, List.mem_singleton, l1 x]
      constructor
      · rintro (h | h)
        · exact Or.inl h
        · exact Or.inr ⟨h, g2, g1, g3⟩
      · rintro (h | h)
        · exact Or.inl h
        · exact Or.inr h.1
    · rename_i hg
      rw [l1 x]
      constructor
      · intro h; exact Or.inl h
      · rintro (h | ⟨_, h2, h3, h4⟩)
        · exact h
        · exact absurd (hguard.2 ⟨h3, h2, h4⟩) hg
  refine ⟨?_, ?_, ?_, hchar⟩
  · rw [sv]
    split
    · rename_i hg
      obtain ⟨_, g2, _⟩ := hguard.1 hg
      rw [List.nodup_append]
      refine ⟨l2, List.nodup_singleton _, ?_⟩
      intro a ha hb
      rw [List.mem_singleton] at hb
      subst hb
      exact g2 ((l1 a).1 ha).1
    · exact l2
  · rw [sr]
    split
    · rename_i hc
      rw [List.nodup_append]
      refine ⟨hndr, List.nodup_singleton _, ?_⟩
      intro a ha hb
      rw [List.mem_singleton] at hb
      subst hb
      exact hc.2 ha
    · exact hndr
  · intro x hx hxv
    rcases (hchar x).1 hxv with ⟨h1, h2⟩ | ⟨h1, _, h3, h4⟩
    · rcases hmemr x hx with h | h
      · exact hdisj x h h1
      · exact h2 h
    · subst h1
      rcases hmemr x hx with h | h
      · exact h3 h
      · exact h4 h

/-- Witness of C19 at the state reached by `("x","p"), ("y","q")`, which stores
`"x"`, `"y"` in `values`, and the row `("z","x")`: the value stored in the last
slot is not `"z"`. -/
theorem add_preserves_invariants_witness :
    (RefsWF (run initState [(some sx, some sp), (some sy, some sq)]) ∧
      ValsWF (run initState [(some sx, some sp), (some sy, some sq)]) ∧
      (storedValues (run initState [(some sx, some sp), (some sy, some sq)])).Nodup ∧
      (storedReferences (run initState [(some sx, some sp), (some sy, some sq)])).Nodup ∧
      (∀ x ∈ storedReferences (run initState [(some sx, some sp), (some sy, some sq)]),
        x ∉ storedValues (run initState [(some sx, some sp), (some sy, some sq)])) ∧
      ¬ ∃ j, j + 1 < (run initState [(some sx, some sp), (some sy, some sq)]).valueCount ∧
        storedValue (run initState [(some sx, some sp), (some sy, some sq)]) j = sx ∧
        storedValue (run initState [(some sx, some sp), (some sy, some sq)])
          ((run initState [(some sx, some sp), (some sy, some sq)]).valueCount - 1) = sz) ∧
    ((storedValues (addRow (run initState [(some sx, some sp), (some sy, some sq)])
        (some sz, some sx))).Nodup ∧
      (storedReferences (addRow (run initState [(some sx, some sp), (some sy, some sq)])
        (some sz, some sx))).Nodup ∧
      (∀ x ∈ storedReferences (addRow (run initState [(some sx, some sp), (some sy, some sq)])
          (some sz, some sx)),
        x ∉ storedValues (addRow (run initState [(some sx, some sp), (some sy, some sq)])
          (some sz, some sx))) ∧
      (∀ x, x ∈ storedValues (addRow (run initState [(some sx, some sp), (some sy, some sq)])
          (some sz, some sx)) ↔
        (x ∈ storedValues (run initState [(some sx, some sp), (some sy, some sq)]) ∧ x ≠ sx) ∨
        (x = sz ∧ sz ∉ storedValues (run initState [(some sx, some sp), (some sy, some sq)]) ∧
          sz ∉ storedReferences (run initState [(some sx, some sp), (some sy, some sq)]) ∧
          sz ≠ sx))) :=
  have hside : ¬ ∃ j, j + 1 < (run initState [(some sx, some sp), (some sy, some sq)]).valueCount ∧
      storedValue (run initState [(some sx, some sp), (some sy, some sq)]) j = sx ∧
      storedValue (run initState [(some sx, some sp), (some sy, some sq)])
        ((run initState [(some sx, some sp), (some sy, some sq)]).valueCount - 1) = sz := by
    rintro ⟨j, _, _, h⟩
    exact absurd h (by decide)
  ⟨⟨by decide, by decide, by decide, by decide, by decide, hside⟩,
    add_preserves_invariants (run initState [(some sx, some sp), (some sy, some sq)]) sz sx
      (by decide) (by decide) (by decide) (by decide) (by decide) hside⟩

/-- C20 (no eligible value is lost when no argument is null): from an empty
state, with every allocation succeeding and rows whose arguments are all
non-null, every byte string that is the value argument of some row and the
reference argument of none is stored in `values` at the end; and at every point
of the run an add with a non-null reference argument `r` removes from `values`
no stored string other than `r`. -/
theorem no_eligible_value_lost (data : not_in_data)
    (rows : List (Option Bytes × Option Bytes)) (h : EmptyState data)
    (hnn : ∀ x ∈ rows, x.1.isSome = true ∧ x.2.isSome = true) :
    (∀ v, (∃ x ∈ rows, x.1 = some v) → (∀ y ∈ rows, y.2 ≠ some v) →
      v ∈ storedValues (run data rows)) ∧
    (∀ (n : Nat) (V : Option Bytes) (r v : Bytes),
      v ∈ storedValues (run data (rows.take n)) → v ≠ r →
      v ∈ storedValues (addRow (run data (rows.take n)) (V, some r))) := by
  obtain ⟨hr, hv⟩ := wellFormed_of_empty data h
  obtain ⟨he, _⟩ := storedReferences_of_empty data h
  constructor
  · rintro v ⟨x, hx, hxv⟩ hne
    apply run_values_gain v rows data hr hv
    · rw [he]; exact List.not_mem_nil _
    · intro y hy e
      have hs := (hnn y hy).2
      obtain ⟨r, hyr⟩ := Option.isSome_iff_exists.1 hs
      apply hne y hy
      rw [hyr] at e ⊢
      exact congrArg some e.symm
    · exact Or.inr ⟨x, hx, by rw [hxv]; rfl⟩
  · intro n V r v hin hne
    exact addRow_values_keep _ V (some r) (run_wellFormed (rows.take n) data hr hv).2 v hin hne

/-- Witness of C20 at the state of a fresh init and the rows `("x","p"),
("y","q"), ("y","x"), ("z","y")`, where `"z"` is a value and no reference. -/
theorem no_eligible_value_lost_witness :
    (EmptyState initState ∧ ∀ x ∈ rowsLeak, x.1.isSome = true ∧ x.2.isSome = true) ∧
    ((∀ v, (∃ x ∈ rowsLeak, x.1 = some v) → (∀ y ∈ rowsLeak, y.2 ≠ some v) →
        v ∈ storedValues (run initState rowsLeak)) ∧
      (∀ (n : Nat) (V : Option Bytes) (r v : Bytes),
        v ∈ storedValues (run initState (rowsLeak.take n)) → v ≠ r →
        v ∈ storedValues (addRow (run initState (rowsLeak.take n)) (V, some r)))) :=
  ⟨⟨by decide, by decide⟩, no_eligible_value_lost initState rowsLeak (by decide) (by decide)⟩

/-- C12 (scenarios 1, 2, 3, 4 and 6): from an empty state, with every allocation
succeeding, the rows of each scenario applied in any order leave the listed
sets: `{"a"}` and `{"b"}`; `{"a"}` and `{"b","c"}`; nothing and `{"a"}`; `{"a"}`
and `{"b","c"}`; nothing and `{"x","y"}`. -/
theorem scenarios_any_order (data : not_in_data) (h : EmptyState data) :
    (∀ p, p.Perm scenario1 →
      (∀ v, v ∈ storedValues (run data p) ↔ v ∈ [sa]) ∧
      (∀ r, r ∈ storedReferences (run data p) ↔ r ∈ [sb])) ∧
    (∀ p, p.Perm scenario2 →
      (∀ v, v ∈ storedValues (run data p) ↔ v ∈ [sa]) ∧
      (∀ r, r ∈ storedReferences (run data p) ↔ r ∈ [sb, sc])) ∧
    (∀ p, p.Perm scenario3 →
      (∀ v, v ∈ storedValues (run data p) ↔ v ∈ []) ∧
      (∀ r, r ∈ storedReferences (run data p) ↔ r ∈ [sa])) ∧
    (∀ p, p.Perm scenario4 →
      (∀ v, v ∈ storedValues (run data p) ↔ v ∈ [sa]) ∧
      (∀ r, r ∈ storedReferences (run data p) ↔ r ∈ [sb, sc])) ∧
    (∀ p, p.Perm scenario6 →
      (∀ v, v ∈ storedValues (run data p) ↔ v ∈ []) ∧
      (∀ r, r ∈ storedReferences (run data p) ↔ r ∈ [sx, sy])) :=
  ⟨sets_of_perm scenario1 [sa] [sb] (by decide) data h,
    sets_of_perm scenario2 [sa] [sb, sc] (by decide) data h,
    sets_of_perm scenario3 [] [sa] (by decide) data h,
    sets_of_perm scenario4 [sa] [sb, sc] (by decide) data h,
    sets_of_perm scenario6 [] [sx, sy] (by decide) data h⟩

/-- Witness of C12 at the state attached by a successful init. -/
theorem scenarios_any_order_witness :
    EmptyState initState ∧
    ((∀ p, p.Perm scenario1 →
        (∀ v, v ∈ storedValues (run initState p) ↔ v ∈ [sa]) ∧
        (∀ r, r ∈ storedReferences (run initState p) ↔ r ∈ [sb])) ∧
      (∀ p, p.Perm scenario2 →
        (∀ v, v ∈ storedValues (run initState p) ↔ v ∈ [sa]) ∧
        (∀ r, r ∈ storedReferences (run initState p) ↔ r ∈ [sb, sc])) ∧
      (∀ p, p.Perm scenario3 →
        (∀ v, v ∈ storedValues (run initState p) ↔ v ∈ []) ∧
        (∀ r, r ∈ storedReferences (run initState p) ↔ r ∈ [sa])) ∧
      (∀ p, p.Perm scenario4 →
        (∀ v, v ∈ storedValues (run initState p) ↔ v ∈ [sa]) ∧
        (∀ r, r ∈ storedReferences (run initState p) ↔ r ∈ [sb, sc])) ∧
      (∀ p, p.Perm scenario6 →
        (∀ v, v ∈ storedValues (run initState p) ↔ v ∈ []) ∧
        (∀ r, r ∈ storedReferences (run initState p) ↔ r ∈ [sx, sy]))) :=
  ⟨by decide, scenarios_any_order initState (by decide)⟩

/-- C13 (scenario 5) as stated does not hold of the code: applied in the listed
order to the state of a fresh init, the rows `("a","b"), (NULL,"c"), ("d",NULL)`
leave `"a"` and `"d"` stored in `values`, not `"d"` alone. -/
theorem scenario5_keeps_a :
    storedValues (run initState scenario5) = [sa, sd] ∧
    ¬ (∀ v, v ∈ storedValues (run initState scenario5) ↔ v ∈ [sd]) := by
  refine ⟨by decide, ?_⟩
  intro h
  exact absurd ((h sa).1 (by decide)) (by decide)

/-- C13 amended (scenario 5): from an empty state, with every allocation
succeeding, the rows `("a","b"), (NULL,"c"), ("d",NULL)` applied in the listed
order leave `values` equal as a set to `{"a","d"}` and `references` to
`{"b","c"}`; applied in any order they leave `references` equal as a set to
`{"b","c"}`, `"a"` and `"d"` stored in `values`, and no non-empty string other
than these two in `values`. -/
theorem scenario5_sets (data : not_in_data) (h : EmptyState data) :
    ((∀ v, v ∈ storedValues (run data scenario5) ↔ v ∈ [sa, sd]) ∧
      (∀ r, r ∈ storedReferences (run data scenario5) ↔ r ∈ [sb, sc])) ∧
    (∀ p, p.Perm scenario5 →
      (∀ r, r ∈ storedReferences (run data p) ↔ r ∈ [sb, sc]) ∧
      sa ∈ storedValues (run data p) ∧ sd ∈ storedValues (run data p) ∧
      ∀ v ∈ storedValues (run data p), v ≠ [] → v = sa ∨ v = sd) := by
  have hlisted : (storedValues (run initState scenario5) ⊆ [sa, sd] ∧
      [sa, sd] ⊆ storedValues (run initState scenario5)) ∧
      (storedReferences (run initState scenario5) ⊆ [sb, sc] ∧
      [sb, sc] ⊆ storedReferences (run initState scenario5)) := by decide
  have hall : ∀ p ∈ scenario5.permutations',
      (storedReferences (run initState p) ⊆ [sb, sc] ∧
        [sb, sc] ⊆ storedReferences (run initState p)) ∧
      sa ∈ storedValues (run initState p) ∧ sd ∈ storedValues (run initState p) ∧
      ∀ v ∈ storedValues (run initState p), v ≠ [] → v = sa ∨ v = sd := by decide
  constructor
  · obtain ⟨⟨a1, a2⟩, ⟨b1, b2⟩⟩ := hlisted
    obtain ⟨e1, e2⟩ := run_of_empty data h scenario5
    rw [e1, e2]
    exact ⟨fun v => ⟨fun hv => a1 hv, fun hv => a2 hv⟩,
      fun r => ⟨fun hr => b1 hr, fun hr => b2 hr⟩⟩
  · intro p hp
    obtain ⟨⟨b1, b2⟩, c1, c2, c3⟩ := hall p (List.mem_permutations'.2 hp)
    obtain ⟨e1, e2⟩ := run_of_empty data h p
    rw [e1, e2]
    exact ⟨fun r => ⟨fun hr => b1 hr, fun hr => b2 hr⟩, c1, c2, c3⟩

/-- Witness of the amended C13 at the state attached by a successful init. -/
theorem scenario5_sets_witness :
    EmptyState initState ∧
    (((∀ v, v ∈ storedValues (run initState scenario5) ↔ v ∈ [sa, sd]) ∧
        (∀ r, r ∈ storedReferences (run initState scenario5) ↔ r ∈ [sb, sc])) ∧
      (∀ p, p.Perm scenario5 →
        (∀ r, r ∈ storedReferences (run initState p) ↔ r ∈ [sb, sc]) ∧
        sa ∈ storedValues (run initState p) ∧ sd ∈ storedValues (run initState p) ∧
        ∀ v ∈ storedValues (run initState p), v ≠ [] → v = sa ∨ v = sd)) :=
  ⟨by decide, scenario5_sets initState (by decide)⟩

end NotIn
